import Mathlib

/-!
Verification development for the SimpleInterpreter_Rust repository
(`src/parser.rs`, `src/interpreter.rs`).

The AST (`Node`), runtime values (`Value`), the interpreter state
(`Interp` = function table + call stack) and the evaluator (`exec`) are
shallow embeddings of the Rust source.  Conventions:

* Rust `Vec<u8>` names/lexemes are modelled as `String` (every input in the
  claims is valid UTF-8, so `String::from_utf8`/`from_utf8_lossy` are the
  identity on them).
* `i32` is modelled as `Int` with explicit two's-complement wrapping
  (`wrap32`) at the arithmetic operations, matching release-mode Rust.
* A Rust panic (an `unreachable!`, a `Vec` index out of bounds, or an
  integer division by zero / `i32::MIN / -1` overflow) aborts the process;
  it is modelled as the distinct outcome `ExecComp.panicked`.
* The evaluator is recursive through the function table (a call evaluates
  a stored body), so it is not structurally recursive on the node; `exec`
  takes a fuel argument bounding the recursion depth, and exhausting it is
  the (model-only) outcome `ExecComp.fuelSpent`.
* The Rust `HashMap` is modelled as an association list with
  overwrite-on-insert (`aInsert`) and first-match lookup (`aLookup`).
* The call stack `Vec<Frame>` is modelled as a list whose HEAD is the top
  of the stack (the `Vec`'s last element): `push` conses, `pop` drops the
  head, `last`/`last_mut` act on the head.
-/

namespace Asa

/-- AST node, from `parser.rs` (`pub enum Node`). -/
inductive Node where
  | Program (children : List Node)
  | Statement (children : List Node)
  | FunctionDefine (name : String) (children : List Node)
  | FunctionArguments (children : List Node)
  | FunctionStatements (children : List Node)
  | Expression (children : List Node)
  | MathExpression (name : String) (children : List Node)
  | FunctionCall (name : String) (children : List Node)
  | VariableDefine (children : List Node)
  | FunctionReturn (children : List Node)
  | Number (value : Int)
  | Bool (value : Bool)
  | Identifier (value : String)
  | String (value : String)
  | Comment (value : String)
  | Null

instance : Inhabited Node := ⟨Node.Null⟩

/-- Runtime value, from `interpreter.rs` (`pub enum Value`):
`String(String)`, `Number(i32)`, `Bool(bool)`. -/
inductive Value where
  | String (s : String)
  | Number (n : Int)
  | Bool (b : Bool)
deriving DecidableEq

/-- Error kind of the crate's `AsaErrorKind` (its file `error.rs` is not
under `src/`); the two constructors are exactly the ones used by
`interpreter.rs` and `tests/interpreter.rs`: `Generic(String)` and
`UndefinedFunction`. -/
inductive AsaErrorKind where
  | Generic (msg : String)
  | UndefinedFunction
deriving DecidableEq

/-- A stack frame: `type Frame = HashMap<String, Value>` modelled as an
association list. -/
abbrev Frame := List (String × Value)

/-- `HashMap` lookup on an association list: value of the first matching key. -/
def aLookup {α : Type} (l : List (String × α)) (k : String) : Option α :=
  match l with
  | [] => none
  | (k', v) :: rest => if k' = k then some v else aLookup rest k

/-- `HashMap::insert`: overwrite any existing binding for the key. -/
def aInsert {α : Type} (k : String) (v : α) (l : List (String × α)) :
    List (String × α) :=
  (k, v) :: l.filter (fun p => p.1 ≠ k)

/-- Interpreter state, from `interpreter.rs` (`pub struct Interpreter`):
the function table maps a name to its `(FunctionArguments, FunctionStatements)`
pair, and the stack is a vector of frames (top of stack at the list head). -/
structure Interp where
  functions : List (String × (Node × Node))
  stack : List Frame

/-- `Interpreter::new()`: empty function table, one empty global frame. -/
def interpNew : Interp := { functions := [], stack := [[]] }

/-- Outcome of running `exec`: a returned `Result` together with the
interpreter state (`&mut self` mutations survive an `Err`), a process
abort (Rust panic), or fuel exhaustion (model artifact only). -/
inductive ExecComp where
  | out (r : Except AsaErrorKind Value) (i : Interp)
  | panicked
  | fuelSpent

/-- Outcome of the parameter-binding loop inside the `FunctionCall` arm. -/
inductive LoopRes where
  | done (fr : Frame) (i : Interp)
  | errout (e : AsaErrorKind) (i : Interp)
  | panickedL
  | fuelSpentL

/-- Two's-complement wrap into `i32` range. -/
def wrap32 (z : Int) : Int := (z + 2 ^ 31) % 2 ^ 32 - 2 ^ 31

/-- Rust `i32` division `lhs / rhs` (truncation toward zero); `none` models
the panic on `rhs == 0` and on the `i32::MIN / -1` overflow. -/
def i32Div (lhs rhs : Int) : Option Int :=
  if rhs = 0 then none
  else if lhs = -(2 ^ 31) ∧ rhs = -1 then none
  else some (Int.tdiv lhs rhs)

mutual

/-- The derived `Debug` rendering used by `format!("{:?}", x)` in the
evaluator's catch-all arm (names shown as text rather than byte lists). -/
def nodeDebug : Node → String
  | .Program cs => "Program \x7b children: [" ++ nodeDebugList cs ++ "] \x7d"
  | .Statement cs => "Statement \x7b children: [" ++ nodeDebugList cs ++ "] \x7d"
  | .FunctionDefine n cs =>
      "FunctionDefine \x7b name: " ++ n ++ ", children: [" ++ nodeDebugList cs ++ "] \x7d"
  | .FunctionArguments cs =>
      "FunctionArguments \x7b children: [" ++ nodeDebugList cs ++ "] \x7d"
  | .FunctionStatements cs =>
      "FunctionStatements \x7b children: [" ++ nodeDebugList cs ++ "] \x7d"
  | .Expression cs => "Expression \x7b children: [" ++ nodeDebugList cs ++ "] \x7d"
  | .MathExpression n cs =>
      "MathExpression \x7b name: " ++ n ++ ", children: [" ++ nodeDebugList cs ++ "] \x7d"
  | .FunctionCall n cs =>
      "FunctionCall \x7b name: " ++ n ++ ", children: [" ++ nodeDebugList cs ++ "] \x7d"
  | .VariableDefine cs =>
      "VariableDefine \x7b children: [" ++ nodeDebugList cs ++ "] \x7d"
  | .FunctionReturn cs =>
      "FunctionReturn \x7b children: [" ++ nodeDebugList cs ++ "] \x7d"
  | .Number v => "Number \x7b value: " ++ toString v ++ " \x7d"
  | .Bool b => "Bool \x7b value: " ++ toString b ++ " \x7d"
  | .Identifier v => "Identifier \x7b value: " ++ v ++ " \x7d"
  | .String v => "String \x7b value: " ++ v ++ " \x7d"
  | .Comment v => "Comment \x7b value: " ++ v ++ " \x7d"
  | .Null => "Null"

/-- Comma-separated `Debug` rendering of a node list. -/
def nodeDebugList : List Node → String
  | [] => ""
  | [n] => nodeDebug n
  | n :: rest => nodeDebug n ++ ", " ++ nodeDebugList rest

end

/-- The catch-all arm's message: `format!("No supported node type: {:?}", x)`. -/
def noSupportMsg (x : Node) : String := "No supported node type: " ++ nodeDebug x

/-- `Node` kinds admitted by the `Program` arm's inner `match`
(`FunctionDefine | Expression | VariableDefine | String | Number | Bool`);
anything else falls into its `unreachable!` branch. -/
def allowedTop : Node → Bool
  | .FunctionDefine _ _ => true
  | .Expression _ => true
  | .VariableDefine _ => true
  | .String _ => true
  | .Number _ => true
  | .Bool _ => true
  | _ => false

/-- The `for n in children` loop of the `Program` arm: evaluates each child
whose kind is in the admitted set (overwriting `result` each time, even
with an `Err`), hits `unreachable!` otherwise. -/
def progChildrenGo (ex : Interp → Node → ExecComp) (i : Interp) :
    List Node → Except AsaErrorKind Value → ExecComp
  | [], result => .out result i
  | n :: rest, result =>
    if allowedTop n then
      match ex i n with
      | .out r i' => progChildrenGo ex i' rest r
      | .panicked => .panicked
      | .fuelSpent => .fuelSpent
    else
      .panicked -- `_ => unreachable!()`

/-- The `for (param, arg) in params.iter().zip(children.iter())` loop of the
`FunctionCall` arm: per pair, require the parameter to be an `Identifier`,
evaluate the argument in the current (caller) state, insert into the new
frame. -/
def callLoopGo (ex : Interp → Node → ExecComp) (i : Interp) :
    List (Node × Node) → Frame → LoopRes
  | [], new_frame => .done new_frame i
  | (param, arg) :: rest, new_frame =>
    match param with
    | .Identifier param_name =>
      match ex i arg with
      | .out (.ok arg_value) i' =>
        callLoopGo ex i' rest (aInsert param_name arg_value new_frame)
      | .out (.error e) i' => .errout e i'
      | .panicked => .panickedL
      | .fuelSpent => .fuelSpentL
    | _ =>
      .errout (.Generic
        "The parameter in the function's definition is not an identifier") i

/-- One step of `Interpreter::exec`, parameterized by the recursive call
`ex` (which the fuel-indexed `exec` below instantiates with itself at one
less fuel).  A faithful transliteration of the `match node` in
`interpreter.rs`. -/
def execStep (ex : Interp → Node → ExecComp) (i : Interp) (n : Node) : ExecComp :=
  match n with
  | .Program children => progChildrenGo ex i children (Except.ok (Value.Bool true))
  | .MathExpression name children =>
      -- the `children.len() != 2` guard makes the later indexing safe, so
      -- the guard plus `children[0]`/`children[1]` is exactly a two-element
      -- pattern match with the guard's error otherwise
      match children with
      | [l, r] =>
          match ex i l with
          | .out (.ok left_value) i1 =>
            match ex i1 r with
            | .out (.ok right_value) i2 =>
              (match left_value, right_value with
               | .Number lhs, .Number rhs =>
                 if name = "add" then .out (.ok (.Number (wrap32 (lhs + rhs)))) i2
                 else if name = "sub" then .out (.ok (.Number (wrap32 (lhs - rhs)))) i2
                 else if name = "mul" then .out (.ok (.Number (wrap32 (lhs * rhs)))) i2
                 else if name = "div" then
                   match i32Div lhs rhs with
                   | some q => .out (.ok (.Number q)) i2
                   | none => .panicked
                 else
                   .out (.error (.Generic "Unsupported operation in Math Expression")) i2
               | _, _ =>
                 .out (.error (.Generic "MathExpression operands must be numbers")) i2)
            | .out (.error e) i2 => .out (.error e) i2
            | .panicked => .panicked
            | .fuelSpent => .fuelSpent
          | .out (.error e) i1 => .out (.error e) i1
          | .panicked => .panicked
          | .fuelSpent => .fuelSpent
      | _ =>
        .out (.error (.Generic "MathExpression must have exactly two children")) i
  | .FunctionCall name children =>
      match aLookup i.functions name with
      | none => .out (.error .UndefinedFunction) i
      | some (func_args, func_body) =>
        match func_args with
        | .FunctionArguments params =>
          if params.length ≠ children.length then
            .out (.error (.Generic
              ("Expected a total of " ++ toString params.length ++
               " arguments, instead got only " ++ toString children.length ++
               " arguments"))) i
          else
            match callLoopGo ex i (params.zip children) [] with
            | .done new_frame i1 =>
              -- push the new frame, execute the body, pop the frame
              match ex { i1 with stack := new_frame :: i1.stack } func_body with
              | .out result i2 => .out result { i2 with stack := i2.stack.tail }
              | .panicked => .panicked
              | .fuelSpent => .fuelSpent
            | .errout e i1 => .out (.error e) i1
            | .panickedL => .panicked
            | .fuelSpentL => .fuelSpent
        | _ =>
          .out (.error (.Generic "Function arguments were not provided")) i
  | .FunctionDefine name children =>
      match children with
      | [] => .panicked -- `&children[0]` indexes out of bounds
      | c0 :: rest =>
        match c0 with
        | .FunctionArguments cs0 =>
          match rest with
          | [] => .panicked -- `&children[1]` indexes out of bounds
          | c1 :: _ =>
            match c1 with
            | .FunctionStatements cs1 =>
              let functions' := aInsert name
                (Node.FunctionArguments cs0, Node.FunctionStatements cs1) i.functions
              if (aLookup functions' name).isSome then
                .out (.ok (.Bool true)) { i with functions := functions' }
              else
                .out (.error .UndefinedFunction) { i with functions := functions' }
            | _ => .out (.error (.Generic "Invalid function statements")) i
        | _ => .out (.error (.Generic "Invalid function arguments")) i
  | .FunctionReturn children =>
      match children with
      | [] => .panicked -- `&children[0]` indexes out of bounds
      | c :: _ => ex i c
  | .Identifier value =>
      -- `String::from_utf8` succeeds (names are valid UTF-8 in this model)
      match i.stack with
      | frame :: _ =>
        match aLookup frame value with
        | some v => .out (.ok v) i
        | none => .out (.error .UndefinedFunction) i
      | [] => .out (.error .UndefinedFunction) i
  | .Statement children =>
      match children with
      | [] => .panicked -- `&children[0]` indexes out of bounds
      | c :: _ =>
        match c with
        | .VariableDefine _ => ex i c
        | .FunctionReturn _ => ex i c
        | _ => .out (.error (.Generic "The expression is undefined")) i
  | .VariableDefine children =>
      -- the `children.len() != 2` guard makes the later indexing safe, so
      -- the guard plus the two-element view is exactly a two-element
      -- pattern match with the guard's error otherwise
      match children with
      | [identifier_node, value_node] =>
          match identifier_node with
          | .Identifier value =>
            match ex i value_node with
            | .out (.ok variable_value) i1 =>
              (match i1.stack with
               | current_frame :: rest =>
                 .out (.ok variable_value)
                   { i1 with stack := aInsert value variable_value current_frame :: rest }
               | [] =>
                 .out (.error (.Generic
                   "There is no active frame available to define variable.")) i1)
            | .out (.error e) i1 => .out (.error e) i1
            | .panicked => .panicked
            | .fuelSpent => .fuelSpent
          | _ =>
            .out (.error (.Generic
              "The first child of VariableDefine must be an identifier.")) i
      | _ =>
        .out (.error (.Generic "VariableDefine must have exactly two children")) i
  | .Expression children =>
      match children with
      | [] => .panicked -- `&children[0]` indexes out of bounds
      | c :: _ => ex i c
  | .Number value => .out (.ok (.Number value)) i
  | .String value => .out (.ok (.String value)) i
  | .Bool value => .out (.ok (.Bool value)) i
  | x => .out (.error (.Generic (noSupportMsg x))) i

/-- `Interpreter::exec`, indexed by recursion-depth fuel. -/
def exec : Nat → Interp → Node → ExecComp
  | 0, _, _ => .fuelSpent
  | fuel + 1, i, n => execStep (exec fuel) i n

/-- `Interpreter::start_main`: synthesizes `FunctionCall { name: "main",
children: arguments }` and runs it. -/
def start_main (fuel : Nat) (i : Interp) (arguments : List Node) : ExecComp :=
  exec fuel i (.FunctionCall "main" arguments)

/-! ### The parser (`parser.rs`)

The token stream comes from the crate's lexer, which is not under `src/`.
`TokenKind` lists exactly the kinds `parser.rs` matches on; `Token` and
`check_token` are modelled from the spec: an ordered sequence of classified
tokens with raw lexeme bytes, where matching a token consumes it and a
"fully consumed" stream is the empty list.

`nom`'s combinators are embedded as functions on `List Token` returning
`PRes`: `.ok rest val` (remaining input and value), `.fail` (a recoverable
`nom` error, which `alt` backtracks over), or `.panicP` (a Rust panic,
e.g. the `unwrap` on an out-of-`i32`-range literal, which nothing
catches).  The mutually recursive grammar productions
(`expression`/`function_call`/`arguments`/... call each other at the same
input) take a fuel argument bounding the recursion depth; fuel 0 is a
plain parse failure, and `many0`-style loops carry `nom`'s
infinite-loop guard (fail if an iteration consumes nothing). -/

/-- Token kinds matched by the `t_*` helpers in `parser.rs`. -/
inductive TokenKind where
  | Alpha | Digit | True | False
  | LeftParen | RightParen | LeftCurly | RightCurly
  | Quote | Slash | Comma | Semicolon
  | Let | Fn | Return | WhiteSpace
  | Plus | Dash | Equal
deriving DecidableEq

/-- Modelled from the spec: a classified token with its raw lexeme bytes
(the lexer `lexer.rs` is not under `src/`). -/
structure Token where
  kind : TokenKind
  lexeme : String
deriving DecidableEq

/-- The parser's input: the (whitespace-free) token sequence. -/
abbrev Tokens := List Token

/-- Result of a `nom` parser on tokens. -/
inductive PRes (α : Type) where
  | ok (rest : Tokens) (val : α)
  | fail
  | panicP

/-- Modelled from the spec: `check_token` consumes the first token when the
predicate accepts it and fails (a recoverable `nom` error) otherwise. -/
def check_token (pred : Token → Bool) (input : Tokens) : PRes Token :=
  match input with
  | [] => .fail
  | tk :: rest => if pred tk then .ok rest tk else .fail

def t_alpha (input : Tokens) : PRes Token :=
  check_token (fun tk => tk.kind = .Alpha) input

def t_digit (input : Tokens) : PRes Token :=
  check_token (fun tk => tk.kind = .Digit) input

def t_true (input : Tokens) : PRes Token :=
  check_token (fun tk => tk.kind = .True) input

def t_false (input : Tokens) : PRes Token :=
  check_token (fun tk => tk.kind = .False) input

def t_left_paren (input : Tokens) : PRes Token :=
  check_token (fun tk => tk.kind = .LeftParen) input

def t_right_paren (input : Tokens) : PRes Token :=
  check_token (fun tk => tk.kind = .RightParen) input

def t_left_curly (input : Tokens) : PRes Token :=
  check_token (fun tk => tk.kind = .LeftCurly) input

def t_right_curly (input : Tokens) : PRes Token :=
  check_token (fun tk => tk.kind = .RightCurly) input

def t_quote (input : Tokens) : PRes Token :=
  check_token (fun tk => tk.kind = .Quote) input

def t_slash (input : Tokens) : PRes Token :=
  check_token (fun tk => tk.kind = .Slash) input

def t_comma (input : Tokens) : PRes Token :=
  check_token (fun tk => tk.kind = .Comma) input

def t_semicolon (input : Tokens) : PRes Token :=
  check_token (fun tk => tk.kind = .Semicolon) input

def t_let (input : Tokens) : PRes Token :=
  check_token (fun tk => tk.kind = .Let) input

def t_fn (input : Tokens) : PRes Token :=
  check_token (fun tk => tk.kind = .Fn) input

def t_return (input : Tokens) : PRes Token :=
  check_token (fun tk => tk.kind = .Return) input

def t_plus (input : Tokens) : PRes Token :=
  check_token (fun tk => tk.kind = .Plus) input

def t_dash (input : Tokens) : PRes Token :=
  check_token (fun tk => tk.kind = .Dash) input

def t_equal (input : Tokens) : PRes Token :=
  check_token (fun tk => tk.kind = .Equal) input

/-- `nom::branch::alt` on two alternatives: backtrack to the second on a
recoverable failure, propagate a panic. -/
def altP {α : Type} (p q : Tokens → PRes α) (input : Tokens) : PRes α :=
  match p input with
  | .ok rest v => .ok rest v
  | .panicP => .panicP
  | .fail => q input

/-- `nom::multi::many0` with explicit iteration fuel.  On inner failure it
stops with the collected values; an iteration that consumes nothing is a
`nom` `Many0` error (infinite-loop guard).  With fuel `input.length + 1`
the fuel never runs out for consuming parsers. -/
def many0F {α : Type} (p : Tokens → PRes α) : Nat → Tokens → PRes (List α)
  | 0, input => .ok input []
  | fuel + 1, input =>
    match p input with
    | .fail => .ok input []
    | .panicP => .panicP
    | .ok rest v =>
      if rest.length = input.length then .fail
      else
        match many0F p fuel rest with
        | .ok rest' vs => .ok rest' (v :: vs)
        | .fail => .fail
        | .panicP => .panicP

/-- `nom::multi::many0 p`. -/
def many0 {α : Type} (p : Tokens → PRes α) (input : Tokens) : PRes (List α) :=
  many0F p (input.length + 1) input

/-- `nom::multi::many1 p`: `p` once, then the `many0` loop. -/
def many1 {α : Type} (p : Tokens → PRes α) (input : Tokens) : PRes (List α) :=
  match p input with
  | .fail => .fail
  | .panicP => .panicP
  | .ok rest v =>
    match many0 p rest with
    | .ok rest' vs => .ok rest' (v :: vs)
    | .fail => .fail
    | .panicP => .panicP

def t_alpha1 (input : Tokens) : PRes (List Token) := many1 t_alpha input

def t_alpha0 (input : Tokens) : PRes (List Token) := many0 t_alpha input

def t_alphanumeric1 (input : Tokens) : PRes (List Token) :=
  many1 (altP t_alpha t_digit) input

def t_alphanumeric0 (input : Tokens) : PRes (List Token) :=
  many0 (altP t_alpha t_digit) input

/-- Concatenation of the lexemes of a token list. -/
def joinLexemes (tks : List Token) : String :=
  tks.foldl (fun acc tk => acc ++ tk.lexeme) ""

/-- `identifier`: one alphabetic token plus zero-or-more alphanumeric
tokens, lexemes concatenated. -/
def identifier (input : Tokens) : PRes Node :=
  match t_alpha input with
  | .fail => .fail
  | .panicP => .panicP
  | .ok input1 first =>
    match t_alphanumeric0 input1 with
    | .fail => .fail
    | .panicP => .panicP
    | .ok input2 rest =>
      .ok input2 (.Identifier (first.lexeme ++ joinLexemes rest))

/-- `i32::MAX`. -/
def i32Max : Nat := 2147483647

/-- Base-10 value of a digit string (accumulator form); `none` on any
non-digit character. -/
def digitsVal : List Char → Nat → Option Nat
  | [], acc => some acc
  | c :: rest, acc =>
    if c.isDigit then digitsVal rest (acc * 10 + (c.toNat - Char.toNat (Char.ofNat 48)))
    else none

/-- The digit-string part of `str::parse::<i32>`: all characters must be
digits and the string nonempty. -/
def parseNat? (s : String) : Option Nat :=
  match s.data with
  | [] => none
  | l => digitsVal l 0

/-- `number`: one-or-more digit tokens; the concatenated lexemes are fed to
`str::parse::<i32>().unwrap()`, whose failure (non-digit bytes or an
out-of-range value) is a panic. -/
def number (input : Tokens) : PRes Node :=
  match many1 t_digit input with
  | .fail => .fail
  | .panicP => .panicP
  | .ok rest digits =>
    match parseNat? (joinLexemes digits) with
    | some v => if v ≤ i32Max then .ok rest (.Number (v : Int)) else .panicP
    | none => .panicP

/-- `boolean`: one `true`/`false` token. -/
def boolean (input : Tokens) : PRes Node :=
  match altP t_true t_false input with
  | .fail => .fail
  | .panicP => .panicP
  | .ok rest token =>
    match token.kind with
    | .True => .ok rest (.Bool true)
    | .False => .ok rest (.Bool false)
    | _ => .panicP -- `unreachable!`

/-- `string`: quote, zero-or-more alphanumeric tokens, quote. -/
def string (input : Tokens) : PRes Node :=
  match t_quote input with
  | .fail => .fail
  | .panicP => .panicP
  | .ok input1 _ =>
    match t_alphanumeric0 input1 with
    | .fail => .fail
    | .panicP => .panicP
    | .ok input2 tks =>
      match t_quote input2 with
      | .fail => .fail
      | .panicP => .panicP
      | .ok input3 _ => .ok input3 (.String (joinLexemes tks))

/-- `value`: `alt((number, identifier, boolean))`. -/
def value (input : Tokens) : PRes Node :=
  altP number (altP identifier boolean) input

/-- `math_expression`: value, one `+`/`-` operator, value. -/
def math_expression (input : Tokens) : PRes Node :=
  match value input with
  | .fail => .fail
  | .panicP => .panicP
  | .ok input1 leftside =>
    match altP t_plus t_dash input1 with
    | .fail => .fail
    | .panicP => .panicP
    | .ok input2 operator =>
      match value input2 with
      | .fail => .fail
      | .panicP => .panicP
      | .ok input3 rightside =>
        match operator.kind with
        | .Plus => .ok input3 (.MathExpression "add" [leftside, rightside])
        | .Dash => .ok input3 (.MathExpression "sub" [leftside, rightside])
        | _ => .panicP -- `unreachable!`

/-- `comment`: `//` then zero-or-more alphabetic tokens (dead in the
shipped grammar: `program` never references it). -/
def comment (input : Tokens) : PRes Node :=
  match t_slash input with
  | .fail => .fail
  | .panicP => .panicP
  | .ok input1 _ =>
    match t_slash input1 with
    | .fail => .fail
    | .panicP => .panicP
    | .ok input2 _ =>
      match many0 t_alpha input2 with
      | .fail => .fail
      | .panicP => .panicP
      | .ok input3 tks => .ok input3 (.Comment (joinLexemes tks))

mutual

/-- `function_call`: identifier, `(`, zero-or-more `arguments`, `)`; an
empty argument list becomes the one-element placeholder
`[FunctionArguments { children: [] }]`. -/
def function_call : Nat → Tokens → PRes Node
  | 0, _ => .fail
  | f + 1, input =>
    match identifier input with
    | .fail => .fail
    | .panicP => .panicP
    | .ok input1 fxn_name =>
      match t_left_paren input1 with
      | .fail => .fail
      | .panicP => .panicP
      | .ok input2 _ =>
        match many0arguments f input2 with
        | .fail => .fail
        | .panicP => .panicP
        | .ok input3 args =>
          match t_right_paren input3 with
          | .fail => .fail
          | .panicP => .panicP
          | .ok input4 _ =>
            let args' := if args.isEmpty then [Node.FunctionArguments []] else args
            match fxn_name with
            | .Identifier v => .ok input4 (.FunctionCall v args')
            | _ => .panicP -- `unreachable!`

/-- The `many0(arguments)` loop used by `function_call` and
`function_define`. -/
def many0arguments : Nat → Tokens → PRes (List Node)
  | 0, input => .ok input []
  | f + 1, input =>
    match arguments f input with
    | .fail => .ok input []
    | .panicP => .panicP
    | .ok rest v =>
      if rest.length = input.length then .fail
      else
        match many0arguments f rest with
        | .ok rest' vs => .ok rest' (v :: vs)
        | .fail => .fail
        | .panicP => .panicP

/-- `arguments`: one expression plus zero-or-more `, expression`. -/
def arguments : Nat → Tokens → PRes Node
  | 0, _ => .fail
  | f + 1, input =>
    match expression f input with
    | .fail => .fail
    | .panicP => .panicP
    | .ok input1 arg =>
      match many0other_arg f input1 with
      | .fail => .fail
      | .panicP => .panicP
      | .ok input2 others => .ok input2 (.FunctionArguments (arg :: others))

/-- The `many0(other_arg)` loop used by `arguments`. -/
def many0other_arg : Nat → Tokens → PRes (List Node)
  | 0, input => .ok input []
  | f + 1, input =>
    match other_arg f input with
    | .fail => .ok input []
    | .panicP => .panicP
    | .ok rest v =>
      if rest.length = input.length then .fail
      else
        match many0other_arg f rest with
        | .ok rest' vs => .ok rest' (v :: vs)
        | .fail => .fail
        | .panicP => .panicP

/-- `other_arg`: `,` then an expression. -/
def other_arg : Nat → Tokens → PRes Node
  | 0, _ => .fail
  | f + 1, input =>
    match t_comma input with
    | .fail => .fail
    | .panicP => .panicP
    | .ok input1 _ => expression f input1

/-- `expression`: `alt((boolean, math_expression, function_call, number,
string, identifier))`, the winner wrapped in an `Expression` node. -/
def expression : Nat → Tokens → PRes Node
  | 0, _ => .fail
  | f + 1, input =>
    let r : PRes Node :=
      match boolean input with
      | .ok rest n => .ok rest n
      | .panicP => .panicP
      | .fail =>
        match math_expression input with
        | .ok rest n => .ok rest n
        | .panicP => .panicP
        | .fail =>
          match function_call f input with
          | .ok rest n => .ok rest n
          | .panicP => .panicP
          | .fail =>
            match number input with
            | .ok rest n => .ok rest n
            | .panicP => .panicP
            | .fail =>
              match string input with
              | .ok rest n => .ok rest n
              | .panicP => .panicP
              | .fail => identifier input
    match r with
    | .ok rest result => .ok rest (.Expression [result])
    | .fail => .fail
    | .panicP => .panicP

/-- `statement`: `alt((variable_define, expression, function_return))`
followed by a mandatory `;`; returns the inner node unwrapped. -/
def statement : Nat → Tokens → PRes Node
  | 0, _ => .fail
  | f + 1, input =>
    let r : PRes Node :=
      match variable_define f input with
      | .ok rest n => .ok rest n
      | .panicP => .panicP
      | .fail =>
        match expression f input with
        | .ok rest n => .ok rest n
        | .panicP => .panicP
        | .fail => function_return f input
    match r with
    | .ok input1 result =>
      match t_semicolon input1 with
      | .ok input2 _ => .ok input2 result
      | .fail => .fail
      | .panicP => .panicP
    | .fail => .fail
    | .panicP => .panicP

/-- The `many0` tail of `many1(statement)` used by `function_define`. -/
def many0statement : Nat → Tokens → PRes (List Node)
  | 0, input => .ok input []
  | f + 1, input =>
    match statement f input with
    | .fail => .ok input []
    | .panicP => .panicP
    | .ok rest v =>
      if rest.length = input.length then .fail
      else
        match many0statement f rest with
        | .ok rest' vs => .ok rest' (v :: vs)
        | .fail => .fail
        | .panicP => .panicP

/-- `function_return`: `return` then
`alt((function_call, expression, identifier))`. -/
def function_return : Nat → Tokens → PRes Node
  | 0, _ => .fail
  | f + 1, input =>
    match t_return input with
    | .fail => .fail
    | .panicP => .panicP
    | .ok input1 _ =>
      let r : PRes Node :=
        match function_call f input1 with
        | .ok rest n => .ok rest n
        | .panicP => .panicP
        | .fail =>
          match expression f input1 with
          | .ok rest n => .ok rest n
          | .panicP => .panicP
          | .fail => identifier input1
      match r with
      | .ok input2 result => .ok input2 (.FunctionReturn [result])
      | .fail => .fail
      | .panicP => .panicP

/-- `variable_define`: `let`, identifier, `=`, expression. -/
def variable_define : Nat → Tokens → PRes Node
  | 0, _ => .fail
  | f + 1, input =>
    match t_let input with
    | .fail => .fail
    | .panicP => .panicP
    | .ok input1 _ =>
      match identifier input1 with
      | .fail => .fail
      | .panicP => .panicP
      | .ok input2 var =>
        match t_equal input2 with
        | .fail => .fail
        | .panicP => .panicP
        | .ok input3 _ =>
          match expression f input3 with
          | .fail => .fail
          | .panicP => .panicP
          | .ok input4 expr => .ok input4 (.VariableDefine [var, expr])

/-- `function_define`: `fn`, identifier, `(`, zero-or-more argument lists,
`)`, `{`, one-or-more statements, `}`.  The stored arguments child is the
first parsed argument list, or an empty `FunctionArguments` placeholder. -/
def function_define : Nat → Tokens → PRes Node
  | 0, _ => .fail
  | f + 1, input =>
    match t_fn input with
    | .fail => .fail
    | .panicP => .panicP
    | .ok input1 _ =>
      match identifier input1 with
      | .fail => .fail
      | .panicP => .panicP
      | .ok input2 fxn_name =>
        match fxn_name with
        | .Identifier name =>
          match t_left_paren input2 with
          | .fail => .fail
          | .panicP => .panicP
          | .ok input3 _ =>
            match many0arguments f input3 with
            | .fail => .fail
            | .panicP => .panicP
            | .ok input4 args =>
              match t_right_paren input4 with
              | .fail => .fail
              | .panicP => .panicP
              | .ok input5 _ =>
                match t_left_curly input5 with
                | .fail => .fail
                | .panicP => .panicP
                | .ok input6 _ =>
                  match statement f input6 with
                  | .fail => .fail
                  | .panicP => .panicP
                  | .ok input7 st1 =>
                    match many0statement f input7 with
                    | .fail => .fail
                    | .panicP => .panicP
                    | .ok input8 sts =>
                      match t_right_curly input8 with
                      | .fail => .fail
                      | .panicP => .panicP
                      | .ok input9 _ =>
                        let fxn_statements := Node.FunctionStatements (st1 :: sts)
                        let fxn_arguments :=
                          match args with
                          | [] => Node.FunctionArguments []
                          | a :: _ => a
                        .ok input9 (.FunctionDefine name [fxn_arguments, fxn_statements])
        | _ => .panicP -- `unreachable!`

/-- One alternative of `program`'s `many1(alt(...))`:
`alt((function_define, expression, statement, string, boolean, number))`. -/
def programItem : Nat → Tokens → PRes Node
  | 0, _ => .fail
  | f + 1, input =>
    match function_define f input with
    | .ok rest n => .ok rest n
    | .panicP => .panicP
    | .fail =>
      match expression f input with
      | .ok rest n => .ok rest n
      | .panicP => .panicP
      | .fail =>
        match statement f input with
        | .ok rest n => .ok rest n
        | .panicP => .panicP
        | .fail =>
          match string input with
          | .ok rest n => .ok rest n
          | .panicP => .panicP
          | .fail =>
            match boolean input with
            | .ok rest n => .ok rest n
            | .panicP => .panicP
            | .fail => number input

/-- The `many0` tail of `program`'s `many1` loop. -/
def many0programItem : Nat → Tokens → PRes (List Node)
  | 0, input => .ok input []
  | f + 1, input =>
    match programItem f input with
    | .fail => .ok input []
    | .panicP => .panicP
    | .ok rest v =>
      if rest.length = input.length then .fail
      else
        match many0programItem f rest with
        | .ok rest' vs => .ok rest' (v :: vs)
        | .fail => .fail
        | .panicP => .panicP

/-- `program`: `many1` of `programItem`, wrapped in a `Program` node. -/
def program : Nat → Tokens → PRes Node
  | 0, _ => .fail
  | f + 1, input =>
    match programItem f input with
    | .fail => .fail
    | .panicP => .panicP
    | .ok input1 first =>
      match many0programItem f input1 with
      | .fail => .fail
      | .panicP => .panicP
      | .ok input2 rest => .ok input2 (.Program (first :: rest))

end

/-- Parser fuel that is ample for any token stream (the grammar's mutual
recursion depth is bounded by a small multiple of the input length). -/
def parseFuel (ts : Tokens) : Nat := 8 * ts.length + 16

/-- `program` at ample fuel: the entry point used on whole programs. -/
def programTop (ts : Tokens) : PRes Node := program (parseFuel ts) ts

/-! ### State invariants of the evaluator -/

/-- Every body stored in the function table is a `FunctionStatements` node.
Holds for `Interpreter::new()` and is preserved by `exec` (the
`FunctionDefine` arm stores only `FunctionStatements` bodies). -/
def bodiesFS (i : Interp) : Prop :=
  ∀ p ∈ i.functions, ∃ cs, (p.2).2 = Node.FunctionStatements cs

/-- What one completed `exec` call can do to the state: it never changes
the length of the call stack nor any frame below the top, and it preserves
`bodiesFS`. -/
def stepOK (i i' : Interp) : Prop :=
  i'.stack.length = i.stack.length ∧ i'.stack.tail = i.stack.tail ∧
    (bodiesFS i → bodiesFS i')

theorem stepOK_refl (i : Interp) : stepOK i i := ⟨rfl, rfl, fun h => h⟩

theorem stepOK_trans {i1 i2 i3 : Interp} (h12 : stepOK i1 i2) (h23 : stepOK i2 i3) :
    stepOK i1 i3 :=
  ⟨h23.1.trans h12.1, h23.2.1.trans h12.2.1, fun h => h23.2.2 (h12.2.2 h)⟩

theorem bodiesFS_interpNew : bodiesFS interpNew := by
  intro p hp
  simp [interpNew] at hp

theorem bodiesFS_functions_eq {i i' : Interp} (h : i'.functions = i.functions)
    (hb : bodiesFS i) : bodiesFS i' := by
  intro p hp
  exact hb p (h ▸ hp)

theorem bodiesFS_aInsert {i : Interp} (hb : bodiesFS i) (name : String)
    (a : Node) (cs1 : List Node) {fns' : List (String × (Node × Node))}
    (h : fns' = aInsert name (a, Node.FunctionStatements cs1) i.functions) :
    ∀ s, bodiesFS { functions := fns', stack := s } := by
  intro s p hp
  subst h
  simp only [aInsert, List.mem_cons] at hp
  rcases hp with rfl | hp
  · exact ⟨cs1, rfl⟩
  · exact hb p (List.mem_of_mem_filter hp)

theorem exec_zero (i : Interp) (n : Node) : exec 0 i n = .fuelSpent := rfl

theorem exec_succ (fuel : Nat) (i : Interp) (n : Node) :
    exec (fuel + 1) i n = execStep (exec fuel) i n := rfl

/-- The parameter-binding loop can only finish (`done`) or early-return an
error (`errout`) in a state related to its input by `stepOK`. -/
theorem callLoopGo_state {ex : Interp → Node → ExecComp}
    (Hex : ∀ i n r i', ex i n = .out r i' → stepOK i i') :
    ∀ (ps : List (Node × Node)) (i : Interp) (fr : Frame),
      (∀ fr' i', callLoopGo ex i ps fr = .done fr' i' → stepOK i i') ∧
      (∀ e i', callLoopGo ex i ps fr = .errout e i' → stepOK i i') := by
  intro ps
  induction ps with
  | nil =>
    intro i fr
    refine ⟨fun fr' i' h => ?_, fun e i' h => ?_⟩
    · cases h
      exact stepOK_refl i
    · cases h
  | cons pa rest ih =>
    intro i fr
    obtain ⟨param, arg⟩ := pa
    refine ⟨fun fr' i' h => ?_, fun e i' h => ?_⟩ <;>
      · simp only [callLoopGo] at h
        split at h
        · split at h
          · rename_i param_name hmatch arg_value ix hx
            first
            | exact stepOK_trans (Hex _ _ _ _ hx) ((ih ix _).1 _ _ h)
            | exact stepOK_trans (Hex _ _ _ _ hx) ((ih ix _).2 _ _ h)
          · rename_i param_name hmatch e0 ix hx
            cases h
            try exact Hex _ _ _ _ hx
          · cases h
          · cases h
        · cases h
          try exact stepOK_refl i

/-- The `Program` loop relates its input and output states by `stepOK`. -/
theorem progChildrenGo_state {ex : Interp → Node → ExecComp}
    (Hex : ∀ i n r i', ex i n = .out r i' → stepOK i i') :
    ∀ (cs : List Node) (i : Interp) (res : Except AsaErrorKind Value) (r : Except AsaErrorKind Value) (i' : Interp),
      progChildrenGo ex i cs res = .out r i' → stepOK i i' := by
  intro cs
  induction cs with
  | nil =>
    intro i res r i' h
    cases h
    exact stepOK_refl i
  | cons n rest ih =>
    intro i res r i' h
    simp only [progChildrenGo] at h
    by_cases ha : allowedTop n = true
    · rw [if_pos ha] at h
      cases hx : ex i n with
      | out rx ix =>
        rw [hx] at h
        exact stepOK_trans (Hex _ _ _ _ hx) (ih ix rx r i' h)
      | panicked => rw [hx] at h; cases h
      | fuelSpent => rw [hx] at h; cases h
    · rw [if_neg ha] at h
      cases h

/-- `exec` never changes the call-stack length or anything below the top
frame, and it keeps every stored function body a `FunctionStatements`
node. -/
theorem exec_state :
    ∀ (fuel : Nat) (i : Interp) (n : Node) (r : Except AsaErrorKind Value) (i' : Interp),
      exec fuel i n = .out r i' → stepOK i i' := by
  intro fuel
  induction fuel with
  | zero => intro i n r i' h; cases h
  | succ f ih =>
    intro i n r i' h
    rw [exec_succ] at h
    cases n with
    | Program cs =>
      exact progChildrenGo_state ih cs i _ r i' h
    | MathExpression name cs =>
      simp only [execStep] at h
      split at h
      · rename_i l rr
        cases hx1 : exec f i l with
        | out r1 i1 =>
          rw [hx1] at h
          cases r1 with
          | ok lv =>
            simp only [] at h
            cases hx2 : exec f i1 rr with
            | out r2 i2 =>
              rw [hx2] at h
              have t12 : stepOK i i2 :=
                stepOK_trans (ih _ _ _ _ hx1) (ih _ _ _ _ hx2)
              cases r2 with
              | ok rv =>
                simp only [] at h
                split at h
                · split at h
                  · cases h; exact t12
                  · split at h
                    · cases h; exact t12
                    · split at h
                      · cases h; exact t12
                      · split at h
                        · split at h
                          · cases h; exact t12
                          · cases h
                        · cases h; exact t12
                · cases h; exact t12
              | error e => simp only [] at h; cases h; exact t12
            | panicked => rw [hx2] at h; simp only [] at h; cases h
            | fuelSpent => rw [hx2] at h; simp only [] at h; cases h
          | error e =>
            simp only [] at h
            cases h
            exact ih _ _ _ _ hx1
        | panicked => rw [hx1] at h; simp only [] at h; cases h
        | fuelSpent => rw [hx1] at h; simp only [] at h; cases h
      · cases h; exact stepOK_refl i
    | FunctionCall name cs =>
      simp only [execStep] at h
      cases hl : aLookup i.functions name with
      | none => rw [hl] at h; simp only [] at h; cases h; exact stepOK_refl i
      | some fb =>
        rw [hl] at h
        obtain ⟨fa, body⟩ := fb
        simp only [] at h
        split at h
        · rename_i params
          split at h
          · cases h; exact stepOK_refl i
          · cases hloop : callLoopGo (exec f) i (params.zip cs) [] with
            | done nf i1 =>
              rw [hloop] at h
              simp only [] at h
              cases hb : exec f { i1 with stack := nf :: i1.stack } body with
              | out res i2 =>
                rw [hb] at h
                simp only [] at h
                cases h
                have s1 : stepOK i i1 := (callLoopGo_state ih _ i _).1 _ _ hloop
                have s2 : stepOK { i1 with stack := nf :: i1.stack } i2 :=
                  ih _ _ _ _ hb
                refine ⟨?_, ?_, ?_⟩
                · have h2 : i2.stack.length = i1.stack.length + 1 := s2.1
                  simp only [List.length_tail, h2, Nat.add_sub_cancel]
                  exact s1.1
                · have h2 : i2.stack.tail = i1.stack := s2.2.1
                  simp only [h2]
                  exact s1.2.1
                · intro hb0
                  have h1 : bodiesFS i1 := s1.2.2 hb0
                  have hpush : bodiesFS { i1 with stack := nf :: i1.stack } :=
                    bodiesFS_functions_eq rfl h1
                  have h2 : bodiesFS i2 := s2.2.2 hpush
                  exact bodiesFS_functions_eq rfl h2
              | panicked => rw [hb] at h; simp only [] at h; cases h
              | fuelSpent => rw [hb] at h; simp only [] at h; cases h
            | errout e i1 =>
              rw [hloop] at h
              simp only [] at h
              cases h
              exact (callLoopGo_state ih _ i _).2 _ _ hloop
            | panickedL => rw [hloop] at h; simp only [] at h; cases h
            | fuelSpentL => rw [hloop] at h; simp only [] at h; cases h
        · cases h; exact stepOK_refl i
    | FunctionDefine name cs =>
      simp only [execStep] at h
      split at h
      · cases h
      · split at h
        · rename_i c0 rest cs0
          split at h
          · cases h
          · split at h
            · rename_i c1 rest1 cs1
              split at h
              · cases h
                exact ⟨rfl, rfl, fun hb => bodiesFS_aInsert hb name _ cs1 rfl _⟩
              · cases h
                exact ⟨rfl, rfl, fun hb => bodiesFS_aInsert hb name _ cs1 rfl _⟩
            · cases h; exact stepOK_refl i
        · cases h; exact stepOK_refl i
    | FunctionReturn cs =>
      simp only [execStep] at h
      split at h
      · cases h
      · exact ih _ _ _ _ h
    | Identifier value =>
      simp only [execStep] at h
      split at h
      · split at h
        · cases h; exact stepOK_refl i
        · cases h; exact stepOK_refl i
      · cases h; exact stepOK_refl i
    | Statement cs =>
      simp only [execStep] at h
      split at h
      · cases h
      · split at h
        · exact ih _ _ _ _ h
        · exact ih _ _ _ _ h
        · cases h; exact stepOK_refl i
    | VariableDefine cs =>
      simp only [execStep] at h
      split at h
      · rename_i a b
        split at h
        · rename_i val
          cases hx : exec f i b with
          | out r1 i1 =>
            rw [hx] at h
            cases r1 with
            | ok v =>
              simp only [] at h
              split at h
              · rename_i fr rest1 hstack
                cases h
                have s1 : stepOK i i1 := ih _ _ _ _ hx
                refine ⟨?_, ?_, ?_⟩
                · rw [List.length_cons, ← s1.1, hstack, List.length_cons]
                · rw [List.tail_cons, ← s1.2.1, hstack, List.tail_cons]
                · intro hb0
                  exact bodiesFS_functions_eq rfl (s1.2.2 hb0)
              · cases h
                exact ih _ _ _ _ hx
            | error e =>
              simp only [] at h
              cases h
              exact ih _ _ _ _ hx
          | panicked => rw [hx] at h; simp only [] at h; cases h
          | fuelSpent => rw [hx] at h; simp only [] at h; cases h
        · cases h; exact stepOK_refl i
      · cases h; exact stepOK_refl i
    | Expression cs =>
      simp only [execStep] at h
      split at h
      · cases h
      · exact ih _ _ _ _ h
    | Number v => cases h; exact stepOK_refl i
    | String v => cases h; exact stepOK_refl i
    | Bool v => cases h; exact stepOK_refl i
    | FunctionArguments cs => cases h; exact stepOK_refl i
    | FunctionStatements cs => cases h; exact stepOK_refl i
    | Comment v => cases h; exact stepOK_refl i
    | Null => cases h; exact stepOK_refl i

/-! ### Nodes on which the evaluator cannot panic -/

mutual

/-- Nodes whose evaluation can never reach a panic site of `exec`
(given `bodiesFS`): `Program` children are restricted to the admitted
kinds, `MathExpression` is not a `div` (the only arithmetic with a panic),
every indexed child list is long enough, and the condition holds
recursively for every child that `exec` can recurse into.
`FunctionArguments`/`FunctionStatements`/`Comment`/`Null` land in the
catch-all error arm without recursing, so they are unconditionally good. -/
def goodB : Node → Bool
  | .Program cs => cs.all allowedTop && goodBList cs
  | .Statement cs => !cs.isEmpty && goodBList cs
  | .FunctionDefine _ cs => decide (2 ≤ cs.length)
  | .FunctionArguments _ => true
  | .FunctionStatements _ => true
  | .Expression cs => !cs.isEmpty && goodBList cs
  | .MathExpression name cs => name ≠ "div" && goodBList cs
  | .FunctionCall _ cs => goodBList cs
  | .VariableDefine cs => goodBList cs
  | .FunctionReturn cs => !cs.isEmpty && goodBList cs
  | .Number _ => true
  | .Bool _ => true
  | .Identifier _ => true
  | .String _ => true
  | .Comment _ => true
  | .Null => true

/-- `goodB` on every element of a list. -/
def goodBList : List Node → Bool
  | [] => true
  | c :: rest => goodB c && goodBList rest

end

theorem goodBList_mem {cs : List Node} (h : goodBList cs = true) :
    ∀ c ∈ cs, goodB c = true := by
  induction cs with
  | nil => intro c hc; cases hc
  | cons a rest ih =>
    intro c hc
    simp only [goodBList, Bool.and_eq_true] at h
    rcases hc with _ | hc
    · exact h.1
    · exact ih h.2 c (by assumption)

mutual

/-- Fuel (recursion depth) sufficient for `exec` to finish on a node,
given that every stored function body is a `FunctionStatements` node
(which returns in one step). -/
def eheight : Node → Nat
  | .Program cs => 1 + eheightList cs
  | .Statement cs => 1 + eheightList cs
  | .FunctionDefine _ _ => 1
  | .FunctionArguments _ => 1
  | .FunctionStatements _ => 1
  | .Expression cs => 1 + eheightList cs
  | .MathExpression _ cs => 1 + eheightList cs
  | .FunctionCall _ cs => 1 + max 1 (eheightList cs)
  | .VariableDefine cs => 1 + eheightList cs
  | .FunctionReturn cs => 1 + eheightList cs
  | .Number _ => 1
  | .Bool _ => 1
  | .Identifier _ => 1
  | .String _ => 1
  | .Comment _ => 1
  | .Null => 1

/-- Maximum `eheight` over a list. -/
def eheightList : List Node → Nat
  | [] => 0
  | c :: rest => max (eheight c) (eheightList rest)

end

theorem eheightList_mem {cs : List Node} : ∀ c ∈ cs, eheight c ≤ eheightList cs := by
  induction cs with
  | nil => intro c hc; cases hc
  | cons a rest ih =>
    intro c hc
    simp only [eheightList]
    rcases hc with _ | hc
    · exact le_max_left _ _
    · exact le_trans (ih c (by assumption)) (le_max_right _ _)

theorem aLookup_mem {α : Type} {l : List (String × α)} {k : String} {v : α}
    (h : aLookup l k = some v) : (k, v) ∈ l := by
  induction l with
  | nil => cases h
  | cons p rest ih =>
    obtain ⟨k', v'⟩ := p
    simp only [aLookup] at h
    split at h
    · rename_i hk
      cases h
      subst hk
      exact List.mem_cons_self _ _
    · exact List.mem_cons_of_mem _ (ih h)

/-- A `FunctionStatements` node lands in the evaluator's catch-all arm:
one step, generic error, state unchanged. -/
theorem exec_FS (f : Nat) (i : Interp) (cs : List Node) :
    exec (f + 1) i (.FunctionStatements cs) =
      .out (.error (.Generic (noSupportMsg (.FunctionStatements cs)))) i := rfl

theorem exec_FS_noPanic (f : Nat) (i : Interp) (cs : List Node) :
    exec f i (.FunctionStatements cs) ≠ .panicked := by
  cases f with
  | zero => intro h; cases h
  | succ f => rw [exec_FS]; intro h; cases h

/-- The `Program` loop cannot panic when every child is of an admitted
kind and good. -/
theorem progChildrenGo_noPanic {ex : Interp → Node → ExecComp}
    (Hst : ∀ i n r i', ex i n = .out r i' → stepOK i i')
    (Hnp : ∀ i n, bodiesFS i → goodB n = true → ex i n ≠ .panicked) :
    ∀ (cs : List Node) (i : Interp) (res : Except AsaErrorKind Value),
      bodiesFS i → cs.all allowedTop = true → goodBList cs = true →
      progChildrenGo ex i cs res ≠ .panicked := by
  intro cs
  induction cs with
  | nil => intro i res _ _ _ h; cases h
  | cons n rest ih =>
    intro i res hb hall hgood h
    simp only [List.all_cons, Bool.and_eq_true] at hall
    simp only [goodBList, Bool.and_eq_true] at hgood
    simp only [progChildrenGo, if_pos hall.1] at h
    cases hx : ex i n with
    | out r i' =>
      rw [hx] at h
      exact ih i' r ((Hst _ _ _ _ hx).2.2 hb) hall.2 hgood.2 h
    | panicked => exact absurd hx (Hnp i n hb hgood.1)
    | fuelSpent => rw [hx] at h; cases h

/-- The parameter-binding loop cannot panic when every argument is good. -/
theorem callLoopGo_noPanic {ex : Interp → Node → ExecComp}
    (Hst : ∀ i n r i', ex i n = .out r i' → stepOK i i')
    (Hnp : ∀ i n, bodiesFS i → goodB n = true → ex i n ≠ .panicked) :
    ∀ (ps : List (Node × Node)) (i : Interp) (fr : Frame),
      bodiesFS i → (∀ pa ∈ ps, goodB pa.2 = true) →
      callLoopGo ex i ps fr ≠ .panickedL := by
  intro ps
  induction ps with
  | nil => intro i fr _ _ h; cases h
  | cons pa rest ih =>
    intro i fr hb hargs h
    obtain ⟨param, arg⟩ := pa
    have hga : goodB arg = true := hargs (param, arg) (List.mem_cons_self _ _)
    simp only [callLoopGo] at h
    split at h
    · rename_i param_name
      cases hx : ex i arg with
      | out r i' =>
        rw [hx] at h
        cases r with
        | ok v =>
          simp only [] at h
          exact ih i' _ ((Hst _ _ _ _ hx).2.2 hb)
            (fun q hq => hargs q (List.mem_cons_of_mem _ hq)) h
        | error e => simp only [] at h; cases h
      | panicked => exact absurd hx (Hnp i arg hb hga)
      | fuelSpent => rw [hx] at h; cases h
    · cases h

/-- On a good node, in a state whose stored bodies are all
`FunctionStatements`, `exec` never panics (at any fuel). -/
theorem exec_noPanic :
    ∀ (fuel : Nat) (i : Interp) (n : Node), bodiesFS i → goodB n = true →
      exec fuel i n ≠ .panicked := by
  intro fuel
  induction fuel with
  | zero => intro i n _ _ h; cases h
  | succ f ih =>
    intro i n hb hg h
    rw [exec_succ] at h
    have Hst : ∀ i n r i', exec f i n = .out r i' → stepOK i i' :=
      fun i n r i' hh => exec_state f i n r i' hh
    cases n with
    | Program cs =>
      simp only [goodB, Bool.and_eq_true] at hg
      exact progChildrenGo_noPanic Hst ih cs i _ hb hg.1 hg.2 h
    | MathExpression name cs =>
      simp only [goodB, Bool.and_eq_true, decide_eq_true_eq] at hg
      simp only [execStep] at h
      split at h
      · rename_i l rr
        have hgl : goodB l = true := goodBList_mem hg.2 l (by simp)
        have hgr : goodB rr = true := goodBList_mem hg.2 rr (by simp)
        cases hx1 : exec f i l with
        | out r1 i1 =>
          rw [hx1] at h
          cases r1 with
          | ok lv =>
            simp only [] at h
            have hb1 : bodiesFS i1 := (Hst _ _ _ _ hx1).2.2 hb
            cases hx2 : exec f i1 rr with
            | out r2 i2 =>
              rw [hx2] at h
              cases r2 with
              | ok rv =>
                simp only [] at h
                split at h
                · split at h
                  · cases h
                  · split at h
                    · cases h
                    · split at h
                      · cases h
                      · split at h
                        · rename_i hdiv
                          exact absurd hdiv hg.1
                        · cases h
                · cases h
              | error e => simp only [] at h; cases h
            | panicked => exact absurd hx2 (ih i1 rr hb1 hgr)
            | fuelSpent => rw [hx2] at h; simp only [] at h; cases h
          | error e => simp only [] at h; cases h
        | panicked => exact absurd hx1 (ih i l hb hgl)
        | fuelSpent => rw [hx1] at h; simp only [] at h; cases h
      · cases h
    | FunctionCall name cs =>
      simp only [goodB] at hg
      simp only [execStep] at h
      cases hl : aLookup i.functions name with
      | none => rw [hl] at h; simp only [] at h; cases h
      | some fb =>
        rw [hl] at h
        obtain ⟨fa, body⟩ := fb
        simp only [] at h
        split at h
        · rename_i params
          split at h
          · cases h
          · cases hloop : callLoopGo (exec f) i (params.zip cs) [] with
            | done nf i1 =>
              rw [hloop] at h
              simp only [] at h
              obtain ⟨cs', hcs'⟩ := hb _ (aLookup_mem hl)
              simp only [] at hcs'
              subst hcs'
              cases hbx : exec f { i1 with stack := nf :: i1.stack }
                  (Node.FunctionStatements cs') with
              | out res i2 => rw [hbx] at h; simp only [] at h; cases h
              | panicked => exact absurd hbx (exec_FS_noPanic f _ cs')
              | fuelSpent => rw [hbx] at h; simp only [] at h; cases h
            | errout e i1 => rw [hloop] at h; simp only [] at h; cases h
            | panickedL =>
              refine absurd hloop (callLoopGo_noPanic Hst ih _ i _ hb ?_)
              intro pa hpa
              obtain ⟨p, a⟩ := pa
              exact goodBList_mem hg a (List.of_mem_zip hpa).2
            | fuelSpentL => rw [hloop] at h; simp only [] at h; cases h
        · cases h
    | FunctionDefine name cs =>
      simp only [goodB, decide_eq_true_eq] at hg
      simp only [execStep] at h
      split at h
      · simp at hg
      · split at h
        · rename_i c0 rest cs0
          split at h
          · simp at hg
          · split at h
            · split at h
              · cases h
              · cases h
            · cases h
        · cases h
    | FunctionReturn cs =>
      simp only [goodB, Bool.and_eq_true] at hg
      simp only [execStep] at h
      split at h
      · simp [List.isEmpty] at hg
      · rename_i c crest
        exact absurd h (ih i c hb (goodBList_mem hg.2 c (by simp)))
    | Identifier value =>
      simp only [execStep] at h
      split at h
      · split at h
        · cases h
        · cases h
      · cases h
    | Statement cs =>
      simp only [goodB, Bool.and_eq_true] at hg
      simp only [execStep] at h
      split at h
      · simp [List.isEmpty] at hg
      · split at h
        · rename_i c crest hc
          exact absurd h (ih i _ hb (goodBList_mem hg.2 _ (by simp)))
        · rename_i c crest hc
          exact absurd h (ih i _ hb (goodBList_mem hg.2 _ (by simp)))
        · cases h
    | VariableDefine cs =>
      simp only [goodB] at hg
      simp only [execStep] at h
      split at h
      · rename_i a b
        have hgb : goodB b = true := goodBList_mem hg b (by simp)
        split at h
        · rename_i val
          cases hx : exec f i b with
          | out r1 i1 =>
            rw [hx] at h
            cases r1 with
            | ok v =>
              simp only [] at h
              split at h
              · cases h
              · cases h
            | error e => simp only [] at h; cases h
          | panicked => exact absurd hx (ih i b hb hgb)
          | fuelSpent => rw [hx] at h; simp only [] at h; cases h
        · cases h
      · cases h
    | Expression cs =>
      simp only [goodB, Bool.and_eq_true] at hg
      simp only [execStep] at h
      split at h
      · simp [List.isEmpty] at hg
      · rename_i c crest
        exact absurd h (ih i c hb (goodBList_mem hg.2 c (by simp)))
    | Number v => cases h
    | String v => cases h
    | Bool v => cases h
    | FunctionArguments cs => cases h
    | FunctionStatements cs => cases h
    | Comment v => cases h
    | Null => cases h

theorem eheight_pos (n : Node) : 1 ≤ eheight n := by
  cases n <;> simp [eheight]

/-- The `Program` loop completes when each child is admitted and
executable. -/
theorem progChildrenGo_total {ex : Interp → Node → ExecComp}
    (Hst : ∀ i n r i', ex i n = .out r i' → stepOK i i') :
    ∀ (cs : List Node) (i : Interp) (res : Except AsaErrorKind Value),
      bodiesFS i → cs.all allowedTop = true →
      (∀ c ∈ cs, ∀ j, bodiesFS j → ∃ r j', ex j c = .out r j') →
      ∃ r i', progChildrenGo ex i cs res = .out r i' := by
  intro cs
  induction cs with
  | nil => intro i res _ _ _; exact ⟨res, i, rfl⟩
  | cons n rest ih =>
    intro i res hb hall Hc
    simp only [List.all_cons, Bool.and_eq_true] at hall
    obtain ⟨r, i', hx⟩ := Hc n (List.mem_cons_self _ _) i hb
    simp only [progChildrenGo, if_pos hall.1]
    rw [hx]
    exact ih i' r ((Hst _ _ _ _ hx).2.2 hb) hall.2
      (fun c hc => Hc c (List.mem_cons_of_mem _ hc))

/-- The parameter-binding loop completes (or early-errors) when each
argument is executable. -/
theorem callLoopGo_total {ex : Interp → Node → ExecComp}
    (Hst : ∀ i n r i', ex i n = .out r i' → stepOK i i') :
    ∀ (ps : List (Node × Node)) (i : Interp) (fr : Frame),
      bodiesFS i →
      (∀ pa ∈ ps, ∀ j, bodiesFS j → ∃ r j', ex j pa.2 = .out r j') →
      (∃ fr' i', callLoopGo ex i ps fr = .done fr' i') ∨
      (∃ e i', callLoopGo ex i ps fr = .errout e i') := by
  intro ps
  induction ps with
  | nil => intro i fr _ _; exact Or.inl ⟨fr, i, rfl⟩
  | cons pa rest ih =>
    intro i fr hb Hargs
    obtain ⟨param, arg⟩ := pa
    cases param
    case Identifier pn =>
      obtain ⟨r, i', hx⟩ := Hargs (Node.Identifier pn, arg) (List.mem_cons_self _ _) i hb
      simp only [callLoopGo]
      rw [hx]
      cases r with
      | ok v =>
        exact ih i' _ ((Hst _ _ _ _ hx).2.2 hb)
          (fun q hq => Hargs q (List.mem_cons_of_mem _ hq))
      | error e => exact Or.inr ⟨e, i', rfl⟩
    all_goals exact Or.inr ⟨_, _, rfl⟩

/-- Key fact used by the `FunctionDefine` arm's `contains_key` check. -/
theorem aLookup_aInsert_self {α : Type} (k : String) (v : α)
    (l : List (String × α)) : aLookup (aInsert k v l) k = some v := by
  simp [aInsert, aLookup]

theorem goodBList_head {c : Node} {rest : List Node}
    (h : goodBList (c :: rest) = true) : goodB c = true := by
  simp only [goodBList, Bool.and_eq_true] at h
  exact h.1

theorem goodBList_tail {c : Node} {rest : List Node}
    (h : goodBList (c :: rest) = true) : goodBList rest = true := by
  simp only [goodBList, Bool.and_eq_true] at h
  exact h.2

theorem eheightList_head (c : Node) (rest : List Node) :
    eheight c ≤ eheightList (c :: rest) := le_max_left _ _

theorem eheightList_tail (c : Node) (rest : List Node) :
    eheightList rest ≤ eheightList (c :: rest) := le_max_right _ _

/-- On a good node and a `bodiesFS` state, `exec` completes (returns a
`Result`) whenever the fuel is at least the node's `eheight`. -/
theorem exec_total :
    ∀ (fuel : Nat) (i : Interp) (n : Node), bodiesFS i → goodB n = true →
      eheight n ≤ fuel → ∃ r i', exec fuel i n = .out r i' := by
  intro fuel
  induction fuel with
  | zero =>
    intro i n _ _ hle
    exact absurd (le_trans (eheight_pos n) hle) (by omega)
  | succ f ih =>
    intro i n hb hg hfuel
    rw [exec_succ]
    have Hst : ∀ i n r i', exec f i n = .out r i' → stepOK i i' :=
      fun i n r i' hh => exec_state f i n r i' hh
    cases n with
    | Program cs =>
      simp only [goodB, Bool.and_eq_true] at hg
      simp only [eheight] at hfuel
      refine progChildrenGo_total Hst cs i _ hb hg.1 ?_
      intro c hc j hbj
      exact ih j c hbj (goodBList_mem hg.2 c hc)
        (le_trans (eheightList_mem c hc) (by omega))
    | MathExpression name cs =>
      simp only [goodB, Bool.and_eq_true, decide_eq_true_eq] at hg
      simp only [eheight] at hfuel
      simp only [execStep]
      split
      · rename_i l rr
        have hml : eheight l ≤ eheightList [l, rr] := eheightList_head _ _
        have hmr : eheight rr ≤ eheightList [l, rr] :=
          le_trans (eheightList_head _ _) (eheightList_tail _ _)
        obtain ⟨r1, i1, hx1⟩ := ih i l hb (goodBList_head hg.2) (by omega)
        simp only [hx1]
        cases r1 with
        | ok lv =>
          try simp only []
          obtain ⟨r2, i2, hx2⟩ := ih i1 rr ((Hst _ _ _ _ hx1).2.2 hb)
            (goodBList_head (goodBList_tail hg.2)) (by omega)
          simp only [hx2]
          cases r2 with
          | ok rv =>
            try simp only []
            cases lv with
            | Number lnum =>
              cases rv with
              | Number rnum =>
                try simp only []
                split
                · exact ⟨_, _, rfl⟩
                · split
                  · exact ⟨_, _, rfl⟩
                  · split
                    · exact ⟨_, _, rfl⟩
                    · split
                      · rename_i hdiv
                        exact absurd hdiv hg.1
                      · exact ⟨_, _, rfl⟩
              | String s => exact ⟨_, _, rfl⟩
              | Bool b => exact ⟨_, _, rfl⟩
            | String s => exact ⟨_, _, rfl⟩
            | Bool b => exact ⟨_, _, rfl⟩
          | error e => exact ⟨_, _, rfl⟩
        | error e => exact ⟨_, _, rfl⟩
      · exact ⟨_, _, rfl⟩
    | FunctionCall name cs =>
      simp only [goodB] at hg
      simp only [eheight] at hfuel
      have hf1 : 1 ≤ f := by
        have := le_max_left 1 (eheightList cs)
        omega
      have hcs : eheightList cs ≤ f := by
        have := le_max_right 1 (eheightList cs)
        omega
      simp only [execStep]
      cases hl : aLookup i.functions name with
      | none => exact ⟨_, _, rfl⟩
      | some fb =>
        obtain ⟨fa, body⟩ := fb
        simp only []
        split
        · rename_i params
          split
          · exact ⟨_, _, rfl⟩
          · have Hargs : ∀ pa ∈ params.zip cs, ∀ j, bodiesFS j →
                ∃ r j', exec f j pa.2 = .out r j' := by
              intro pa hpa j hbj
              obtain ⟨p, a⟩ := pa
              have hmem : a ∈ cs := (List.of_mem_zip hpa).2
              exact ih j a hbj (goodBList_mem hg a hmem)
                (le_trans (eheightList_mem a hmem) hcs)
            rcases callLoopGo_total Hst (params.zip cs) i [] hb Hargs with
              ⟨fr', i1, hloop⟩ | ⟨e, i1, hloop⟩
            · simp only [hloop]
              obtain ⟨cs', hcs'⟩ := hb _ (aLookup_mem hl)
              simp only [] at hcs'
              subst hcs'
              cases f with
              | zero => exact absurd hf1 (by omega)
              | succ f' =>
                simp only [exec_FS]
                exact ⟨_, _, rfl⟩
            · simp only [hloop]
              exact ⟨_, _, rfl⟩
        · exact ⟨_, _, rfl⟩
    | FunctionDefine name cs =>
      simp only [goodB, decide_eq_true_eq] at hg
      simp only [execStep]
      split
      · simp at hg
      · rename_i c0 rest
        split
        · rename_i cs0
          split
          · simp at hg
          · rename_i c1 rest1
            split
            · rename_i cs1
              rw [if_pos (by rw [aLookup_aInsert_self]; exact rfl)]
              exact ⟨_, _, rfl⟩
            · exact ⟨_, _, rfl⟩
        · exact ⟨_, _, rfl⟩
    | FunctionReturn cs =>
      simp only [goodB, Bool.and_eq_true] at hg
      simp only [eheight] at hfuel
      simp only [execStep]
      split
      · simp [List.isEmpty] at hg
      · rename_i c crest
        have := eheightList_head c crest
        exact ih i c hb (goodBList_head hg.2) (by omega)
    | Identifier value =>
      simp only [execStep]
      split
      · split
        · exact ⟨_, _, rfl⟩
        · exact ⟨_, _, rfl⟩
      · exact ⟨_, _, rfl⟩
    | Statement cs =>
      simp only [goodB, Bool.and_eq_true] at hg
      simp only [eheight] at hfuel
      simp only [execStep]
      split
      · simp [List.isEmpty] at hg
      · rename_i c crest
        have hhead := eheightList_head c crest
        split
        · exact ih i _ hb (goodBList_head hg.2) (by omega)
        · exact ih i _ hb (goodBList_head hg.2) (by omega)
        · exact ⟨_, _, rfl⟩
    | VariableDefine cs =>
      simp only [goodB] at hg
      simp only [eheight] at hfuel
      simp only [execStep]
      split
      · rename_i a b
        split
        · rename_i val
          have hmb : eheight b ≤ eheightList [Node.Identifier val, b] :=
            le_trans (eheightList_head b []) (eheightList_tail (Node.Identifier val) [b])
          obtain ⟨r1, i1, hx⟩ := ih i b hb (goodBList_head (goodBList_tail hg))
            (by omega)
          simp only [hx]
          cases r1 with
          | ok v =>
            try simp only []
            split
            · exact ⟨_, _, rfl⟩
            · exact ⟨_, _, rfl⟩
          | error e => exact ⟨_, _, rfl⟩
        · exact ⟨_, _, rfl⟩
      · exact ⟨_, _, rfl⟩
    | Expression cs =>
      simp only [goodB, Bool.and_eq_true] at hg
      simp only [eheight] at hfuel
      simp only [execStep]
      split
      · simp [List.isEmpty] at hg
      · rename_i c crest
        have := eheightList_head c crest
        exact ih i c hb (goodBList_head hg.2) (by omega)
    | Number v => exact ⟨_, _, rfl⟩
    | String v => exact ⟨_, _, rfl⟩
    | Bool v => exact ⟨_, _, rfl⟩
    | FunctionArguments cs => exact ⟨_, _, rfl⟩
    | FunctionStatements cs => exact ⟨_, _, rfl⟩
    | Comment v => exact ⟨_, _, rfl⟩
    | Null => exact ⟨_, _, rfl⟩

/-! ### Shapes of parser outputs -/

/-- Tester for `FunctionReturn` nodes. -/
def isFunctionReturnB : Node → Bool
  | .FunctionReturn _ => true
  | _ => false

/-- Tester for `Expression` nodes. -/
def isExpressionB : Node → Bool
  | .Expression _ => true
  | _ => false

/-- Node kinds producible by the `statement` production (the inner
alternation's winners, returned unwrapped). -/
def stKind : Node → Bool
  | .VariableDefine _ => true
  | .Expression _ => true
  | .FunctionReturn _ => true
  | _ => false

/-- Node kinds producible as children of a parsed `Program`:
the six `program` alternatives can yield `FunctionDefine`, `Expression`,
`VariableDefine`, `FunctionReturn` (the latter two through `statement`),
`String`, `Bool`, or `Number` nodes. -/
def topKind : Node → Bool
  | .FunctionDefine _ _ => true
  | .Expression _ => true
  | .VariableDefine _ => true
  | .FunctionReturn _ => true
  | .String _ => true
  | .Bool _ => true
  | .Number _ => true
  | _ => false

/-- Of the parser-producible top-level kinds, only `FunctionReturn` falls
outside the `Program` arm's admitted set. -/
theorem topKind_not_FR_allowed {c : Node} (ht : topKind c = true)
    (hfr : isFunctionReturnB c = false) : allowedTop c = true := by
  cases c <;> simp_all [topKind, isFunctionReturnB, allowedTop]

theorem stKind_topKind {c : Node} (h : stKind c = true) : topKind c = true := by
  cases c <;> simp_all [stKind, topKind]

theorem goodBList_of_forall {cs : List Node} (h : ∀ c ∈ cs, goodB c = true) :
    goodBList cs = true := by
  induction cs with
  | nil => rfl
  | cons a rest ih =>
    simp only [goodBList, Bool.and_eq_true]
    exact ⟨h a (List.mem_cons_self _ _),
           ih (fun c hc => h c (List.mem_cons_of_mem _ hc))⟩

theorem identifier_shape :
    ∀ input rest n, identifier input = .ok rest n → ∃ s, n = .Identifier s := by
  intro input rest n h
  simp only [identifier] at h
  split at h
  · cases h
  · cases h
  · split at h
    · cases h
    · cases h
    · cases h
      exact ⟨_, rfl⟩

theorem number_shape :
    ∀ input rest n, number input = .ok rest n → ∃ v, n = .Number v := by
  intro input rest n h
  simp only [number] at h
  split at h
  · cases h
  · cases h
  · split at h
    · split at h
      · cases h
        exact ⟨_, rfl⟩
      · cases h
    · cases h

theorem boolean_shape :
    ∀ input rest n, boolean input = .ok rest n → ∃ b, n = .Bool b := by
  intro input rest n h
  simp only [boolean] at h
  split at h
  · cases h
  · cases h
  · split at h
    · cases h
      exact ⟨_, rfl⟩
    · cases h
      exact ⟨_, rfl⟩
    · cases h

theorem string_shape :
    ∀ input rest n, string input = .ok rest n → ∃ s, n = .String s := by
  intro input rest n h
  simp only [string] at h
  split at h
  · cases h
  · cases h
  · split at h
    · cases h
    · cases h
    · split at h
      · cases h
      · cases h
      · cases h
        exact ⟨_, rfl⟩

theorem value_shape :
    ∀ input rest n, value input = .ok rest n → goodB n = true := by
  intro input rest n h
  simp only [value, altP] at h
  split at h
  · cases h
    obtain ⟨v, rfl⟩ := number_shape _ _ _ (by assumption)
    rfl
  · cases h
  · split at h
    · cases h
      obtain ⟨s, rfl⟩ := identifier_shape _ _ _ (by assumption)
      rfl
    · cases h
    · obtain ⟨b, rfl⟩ := boolean_shape _ _ _ h
      rfl

theorem math_expression_shape :
    ∀ input rest n, math_expression input = .ok rest n →
      goodB n = true ∧ ∃ nm cs, n = .MathExpression nm cs := by
  intro input rest n h
  simp only [math_expression] at h
  split at h
  · cases h
  · cases h
  · rename_i input1 leftside hleft
    split at h
    · cases h
    · cases h
    · rename_i input2 operator hop
      split at h
      · cases h
      · cases h
      · rename_i input3 rightside hright
        have hgl : goodB leftside = true := value_shape _ _ _ hleft
        have hgr : goodB rightside = true := value_shape _ _ _ hright
        split at h
        · cases h
          refine ⟨?_, "add", _, rfl⟩
          simp [goodB, goodBList, hgl, hgr]
        · cases h
          refine ⟨?_, "sub", _, rfl⟩
          simp [goodB, goodBList, hgl, hgr]
        · cases h

theorem isExpressionB_stKind {n : Node} (h : isExpressionB n = true) :
    stKind n = true := by
  cases n <;> simp_all [isExpressionB, stKind]

theorem isFunctionReturnB_stKind {n : Node} (h : isFunctionReturnB n = true) :
    stKind n = true := by
  cases n <;> simp_all [isFunctionReturnB, stKind]

theorem isExpressionB_topKind {n : Node} (h : isExpressionB n = true) :
    topKind n = true := by
  cases n <;> simp_all [isExpressionB, topKind]

/-- Shapes of the outputs of the mutually recursive grammar productions,
by one simultaneous induction on the parser fuel: every accepted
`function_call`/`expression`/`statement`/... yields a node that the
evaluator cannot panic on (`goodB`), together with the kind information
needed at `program` level. -/
theorem parserShapes : ∀ f : Nat,
    (∀ input rest n, function_call f input = .ok rest n → goodB n = true) ∧
    (∀ input rest l, many0arguments f input = .ok rest l → ∀ a ∈ l, goodB a = true) ∧
    (∀ input rest n, arguments f input = .ok rest n → ∃ cs, n = .FunctionArguments cs) ∧
    (∀ input rest n, other_arg f input = .ok rest n → goodB n = true) ∧
    (∀ input rest n, expression f input = .ok rest n → goodB n = true ∧ isExpressionB n = true) ∧
    (∀ input rest n, statement f input = .ok rest n → goodB n = true ∧ stKind n = true) ∧
    (∀ input rest n, function_return f input = .ok rest n →
      goodB n = true ∧ isFunctionReturnB n = true) ∧
    (∀ input rest n, variable_define f input = .ok rest n →
      goodB n = true ∧ ∃ cs, n = .VariableDefine cs) ∧
    (∀ input rest n, function_define f input = .ok rest n →
      goodB n = true ∧ ∃ nm cs, n = .FunctionDefine nm cs) ∧
    (∀ input rest n, programItem f input = .ok rest n → goodB n = true ∧ topKind n = true) ∧
    (∀ input rest l, many0programItem f input = .ok rest l →
      ∀ c ∈ l, goodB c = true ∧ topKind c = true) ∧
    (∀ input rest n, program f input = .ok rest n →
      ∃ cs, n = .Program cs ∧ ∀ c ∈ cs, goodB c = true ∧ topKind c = true) := by
  intro f
  induction f with
  | zero =>
    refine ⟨?_, ?_, ?_, ?_, ?_, ?_, ?_, ?_, ?_, ?_, ?_, ?_⟩
    · intro input rest n h; simp [function_call] at h
    · intro input rest l h
      simp only [many0arguments] at h
      cases h
      intro a ha
      cases ha
    · intro input rest n h; simp [arguments] at h
    · intro input rest n h; simp [other_arg] at h
    · intro input rest n h; simp [expression] at h
    · intro input rest n h; simp [statement] at h
    · intro input rest n h; simp [function_return] at h
    · intro input rest n h; simp [variable_define] at h
    · intro input rest n h; simp [function_define] at h
    · intro input rest n h; simp [programItem] at h
    · intro input rest l h
      simp only [many0programItem] at h
      cases h
      intro c hc
      cases hc
    · intro input rest n h; simp [program] at h
  | succ f ihf =>
    obtain ⟨ihFC, ihM0A, ihARGS, ihOTHER, ihEXPR, ihSTMT, ihFR, ihVD, ihFD,
      ihPI, ihM0PI, ihPROG⟩ := ihf
    refine ⟨?_, ?_, ?_, ?_, ?_, ?_, ?_, ?_, ?_, ?_, ?_, ?_⟩
    · -- function_call
      intro input rest n h
      simp only [function_call] at h
      cases h1 : identifier input with
      | fail => rw [h1] at h; cases h
      | panicP => rw [h1] at h; cases h
      | ok input1 fxn_name =>
        rw [h1] at h
        simp only [] at h
        cases h2 : t_left_paren input1 with
        | fail => rw [h2] at h; cases h
        | panicP => rw [h2] at h; cases h
        | ok input2 tk2 =>
          rw [h2] at h
          simp only [] at h
          cases h3 : many0arguments f input2 with
          | fail => rw [h3] at h; cases h
          | panicP => rw [h3] at h; cases h
          | ok input3 args =>
            rw [h3] at h
            simp only [] at h
            cases h4 : t_right_paren input3 with
            | fail => rw [h4] at h; cases h
            | panicP => rw [h4] at h; cases h
            | ok input4 tk4 =>
              rw [h4] at h
              simp only [] at h
              obtain ⟨s, rfl⟩ := identifier_shape _ _ _ h1
              simp only [] at h
              cases h
              simp only [goodB]
              by_cases hemp : args.isEmpty
              · simp [hemp, goodBList, goodB]
              · simp only [hemp, if_neg]
                rw [if_neg (by simp [hemp])]
                exact goodBList_of_forall (fun a ha => ihM0A _ _ _ h3 a ha)
    · -- many0arguments
      intro input rest l h
      simp only [many0arguments] at h
      cases h1 : arguments f input with
      | fail =>
        rw [h1] at h
        simp only [] at h
        cases h
        intro a ha
        cases ha
      | panicP => rw [h1] at h; cases h
      | ok rest1 v =>
        rw [h1] at h
        simp only [] at h
        split at h
        · cases h
        · cases h2 : many0arguments f rest1 with
          | fail => rw [h2] at h; cases h
          | panicP => rw [h2] at h; cases h
          | ok rest2 vs =>
            rw [h2] at h
            simp only [] at h
            cases h
            intro a ha
            rcases List.mem_cons.mp ha with rfl | ha
            · obtain ⟨cs, rfl⟩ := ihARGS _ _ _ h1
              rfl
            · exact ihM0A _ _ _ h2 a ha
    · -- arguments
      intro input rest n h
      simp only [arguments] at h
      cases h1 : expression f input with
      | fail => rw [h1] at h; cases h
      | panicP => rw [h1] at h; cases h
      | ok input1 arg =>
        rw [h1] at h
        simp only [] at h
        cases h2 : many0other_arg f input1 with
        | fail => rw [h2] at h; cases h
        | panicP => rw [h2] at h; cases h
        | ok input2 others =>
          rw [h2] at h
          simp only [] at h
          cases h
          exact ⟨_, rfl⟩
    · -- other_arg
      intro input rest n h
      simp only [other_arg] at h
      cases h1 : t_comma input with
      | fail => rw [h1] at h; cases h
      | panicP => rw [h1] at h; cases h
      | ok input1 tk1 =>
        rw [h1] at h
        simp only [] at h
        exact (ihEXPR _ _ _ h).1
    · -- expression
      intro input rest n h
      simp only [expression] at h
      cases h1 : boolean input with
      | ok rb wb =>
        rw [h1] at h
        simp only [] at h
        cases h
        obtain ⟨b, rfl⟩ := boolean_shape _ _ _ h1
        exact ⟨rfl, rfl⟩
      | panicP => rw [h1] at h; cases h
      | fail =>
        rw [h1] at h
        simp only [] at h
        cases h2 : math_expression input with
        | ok rm wm =>
          rw [h2] at h
          simp only [] at h
          cases h
          have hm := math_expression_shape _ _ _ h2
          refine ⟨?_, rfl⟩
          simp [goodB, goodBList, hm.1]
        | panicP => rw [h2] at h; cases h
        | fail =>
          rw [h2] at h
          simp only [] at h
          cases h3 : function_call f input with
          | ok rc wc =>
            rw [h3] at h
            simp only [] at h
            cases h
            refine ⟨?_, rfl⟩
            simp [goodB, goodBList, ihFC _ _ _ h3]
          | panicP => rw [h3] at h; cases h
          | fail =>
            rw [h3] at h
            simp only [] at h
            cases h4 : number input with
            | ok rn wn =>
              rw [h4] at h
              simp only [] at h
              cases h
              obtain ⟨v, rfl⟩ := number_shape _ _ _ h4
              exact ⟨rfl, rfl⟩
            | panicP => rw [h4] at h; cases h
            | fail =>
              rw [h4] at h
              simp only [] at h
              cases h5 : string input with
              | ok rs ws =>
                rw [h5] at h
                simp only [] at h
                cases h
                obtain ⟨s, rfl⟩ := string_shape _ _ _ h5
                exact ⟨rfl, rfl⟩
              | panicP => rw [h5] at h; cases h
              | fail =>
                rw [h5] at h
                simp only [] at h
                cases h6 : identifier input with
                | ok ri wi =>
                  rw [h6] at h
                  simp only [] at h
                  cases h
                  obtain ⟨s, rfl⟩ := identifier_shape _ _ _ h6
                  exact ⟨rfl, rfl⟩
                | panicP => rw [h6] at h; cases h
                | fail => rw [h6] at h; cases h
    · -- statement
      intro input rest n h
      simp only [statement] at h
      cases h1 : variable_define f input with
      | ok r1 w1 =>
        rw [h1] at h
        simp only [] at h
        cases h2 : t_semicolon r1 with
        | fail => rw [h2] at h; cases h
        | panicP => rw [h2] at h; cases h
        | ok r2 tk =>
          rw [h2] at h
          simp only [] at h
          cases h
          obtain ⟨hg, cs, rfl⟩ := ihVD _ _ _ h1
          exact ⟨hg, rfl⟩
      | panicP => rw [h1] at h; cases h
      | fail =>
        rw [h1] at h
        simp only [] at h
        cases h2 : expression f input with
        | ok r1 w1 =>
          rw [h2] at h
          simp only [] at h
          cases h3 : t_semicolon r1 with
          | fail => rw [h3] at h; cases h
          | panicP => rw [h3] at h; cases h
          | ok r3 tk =>
            rw [h3] at h
            simp only [] at h
            cases h
            obtain ⟨hg, hk⟩ := ihEXPR _ _ _ h2
            exact ⟨hg, isExpressionB_stKind hk⟩
        | panicP => rw [h2] at h; cases h
        | fail =>
          rw [h2] at h
          simp only [] at h
          cases h3 : function_return f input with
          | ok r1 w1 =>
            rw [h3] at h
            simp only [] at h
            cases h4 : t_semicolon r1 with
            | fail => rw [h4] at h; cases h
            | panicP => rw [h4] at h; cases h
            | ok r4 tk =>
              rw [h4] at h
              simp only [] at h
              cases h
              obtain ⟨hg, hk⟩ := ihFR _ _ _ h3
              exact ⟨hg, isFunctionReturnB_stKind hk⟩
          | panicP => rw [h3] at h; cases h
          | fail => rw [h3] at h; cases h
    · -- function_return
      intro input rest n h
      simp only [function_return] at h
      cases h1 : t_return input with
      | fail => rw [h1] at h; cases h
      | panicP => rw [h1] at h; cases h
      | ok input1 tk1 =>
        rw [h1] at h
        simp only [] at h
        cases h2 : function_call f input1 with
        | ok r2 w2 =>
          rw [h2] at h
          simp only [] at h
          cases h
          refine ⟨?_, rfl⟩
          simp [goodB, goodBList, ihFC _ _ _ h2]
        | panicP => rw [h2] at h; cases h
        | fail =>
          rw [h2] at h
          simp only [] at h
          cases h3 : expression f input1 with
          | ok r3 w3 =>
            rw [h3] at h
            simp only [] at h
            cases h
            refine ⟨?_, rfl⟩
            simp [goodB, goodBList, (ihEXPR _ _ _ h3).1]
          | panicP => rw [h3] at h; cases h
          | fail =>
            rw [h3] at h
            simp only [] at h
            cases h4 : identifier input1 with
            | ok r4 w4 =>
              rw [h4] at h
              simp only [] at h
              cases h
              obtain ⟨s, rfl⟩ := identifier_shape _ _ _ h4
              exact ⟨rfl, rfl⟩
            | panicP => rw [h4] at h; cases h
            | fail => rw [h4] at h; cases h
    · -- variable_define
      intro input rest n h
      simp only [variable_define] at h
      cases h1 : t_let input with
      | fail => rw [h1] at h; cases h
      | panicP => rw [h1] at h; cases h
      | ok input1 tk1 =>
        rw [h1] at h
        simp only [] at h
        cases h2 : identifier input1 with
        | fail => rw [h2] at h; cases h
        | panicP => rw [h2] at h; cases h
        | ok input2 var =>
          rw [h2] at h
          simp only [] at h
          cases h3 : t_equal input2 with
          | fail => rw [h3] at h; cases h
          | panicP => rw [h3] at h; cases h
          | ok input3 tk3 =>
            rw [h3] at h
            simp only [] at h
            cases h4 : expression f input3 with
            | fail => rw [h4] at h; cases h
            | panicP => rw [h4] at h; cases h
            | ok input4 expr =>
              rw [h4] at h
              simp only [] at h
              cases h
              obtain ⟨s, rfl⟩ := identifier_shape _ _ _ h2
              refine ⟨?_, _, rfl⟩
              simp [goodB, goodBList, (ihEXPR _ _ _ h4).1]
    · -- function_define
      intro input rest n h
      simp only [function_define] at h
      cases h1 : t_fn input with
      | fail => rw [h1] at h; cases h
      | panicP => rw [h1] at h; cases h
      | ok input1 tk1 =>
        rw [h1] at h
        simp only [] at h
        cases h2 : identifier input1 with
        | fail => rw [h2] at h; cases h
        | panicP => rw [h2] at h; cases h
        | ok input2 fxn_name =>
          rw [h2] at h
          simp only [] at h
          obtain ⟨s, rfl⟩ := identifier_shape _ _ _ h2
          simp only [] at h
          cases h3 : t_left_paren input2 with
          | fail => rw [h3] at h; cases h
          | panicP => rw [h3] at h; cases h
          | ok input3 tk3 =>
            rw [h3] at h
            simp only [] at h
            cases h4 : many0arguments f input3 with
            | fail => rw [h4] at h; cases h
            | panicP => rw [h4] at h; cases h
            | ok input4 args =>
              rw [h4] at h
              simp only [] at h
              cases h5 : t_right_paren input4 with
              | fail => rw [h5] at h; cases h
              | panicP => rw [h5] at h; cases h
              | ok input5 tk5 =>
                rw [h5] at h
                simp only [] at h
                cases h6 : t_left_curly input5 with
                | fail => rw [h6] at h; cases h
                | panicP => rw [h6] at h; cases h
                | ok input6 tk6 =>
                  rw [h6] at h
                  simp only [] at h
                  cases h7 : statement f input6 with
                  | fail => rw [h7] at h; cases h
                  | panicP => rw [h7] at h; cases h
                  | ok input7 st1 =>
                    rw [h7] at h
                    simp only [] at h
                    cases h8 : many0statement f input7 with
                    | fail => rw [h8] at h; cases h
                    | panicP => rw [h8] at h; cases h
                    | ok input8 sts =>
                      rw [h8] at h
                      simp only [] at h
                      cases h9 : t_right_curly input8 with
                      | fail => rw [h9] at h; cases h
                      | panicP => rw [h9] at h; cases h
                      | ok input9 tk9 =>
                        rw [h9] at h
                        simp only [] at h
                        cases h
                        exact ⟨rfl, _, _, rfl⟩
    · -- programItem
      intro input rest n h
      simp only [programItem] at h
      cases h1 : function_define f input with
      | ok r1 w1 =>
        rw [h1] at h
        simp only [] at h
        cases h
        obtain ⟨hg, nm, cs, rfl⟩ := ihFD _ _ _ h1
        exact ⟨hg, rfl⟩
      | panicP => rw [h1] at h; cases h
      | fail =>
        rw [h1] at h
        simp only [] at h
        cases h2 : expression f input with
        | ok r2 w2 =>
          rw [h2] at h
          simp only [] at h
          cases h
          obtain ⟨hg, hk⟩ := ihEXPR _ _ _ h2
          exact ⟨hg, isExpressionB_topKind hk⟩
        | panicP => rw [h2] at h; cases h
        | fail =>
          rw [h2] at h
          simp only [] at h
          cases h3 : statement f input with
          | ok r3 w3 =>
            rw [h3] at h
            simp only [] at h
            cases h
            obtain ⟨hg, hk⟩ := ihSTMT _ _ _ h3
            exact ⟨hg, stKind_topKind hk⟩
          | panicP => rw [h3] at h; cases h
          | fail =>
            rw [h3] at h
            simp only [] at h
            cases h4 : string input with
            | ok r4 w4 =>
              rw [h4] at h
              simp only [] at h
              cases h
              obtain ⟨s, rfl⟩ := string_shape _ _ _ h4
              exact ⟨rfl, rfl⟩
            | panicP => rw [h4] at h; cases h
            | fail =>
              rw [h4] at h
              simp only [] at h
              cases h5 : boolean input with
              | ok r5 w5 =>
                rw [h5] at h
                simp only [] at h
                cases h
                obtain ⟨b, rfl⟩ := boolean_shape _ _ _ h5
                exact ⟨rfl, rfl⟩
              | panicP => rw [h5] at h; cases h
              | fail =>
                rw [h5] at h
                simp only [] at h
                obtain ⟨v, rfl⟩ := number_shape _ _ _ h
                exact ⟨rfl, rfl⟩
    · -- many0programItem
      intro input rest l h
      simp only [many0programItem] at h
      cases h1 : programItem f input with
      | fail =>
        rw [h1] at h
        simp only [] at h
        cases h
        intro c hc
        cases hc
      | panicP => rw [h1] at h; cases h
      | ok rest1 v =>
        rw [h1] at h
        simp only [] at h
        split at h
        · cases h
        · cases h2 : many0programItem f rest1 with
          | fail => rw [h2] at h; cases h
          | panicP => rw [h2] at h; cases h
          | ok rest2 vs =>
            rw [h2] at h
            simp only [] at h
            cases h
            intro c hc
            rcases List.mem_cons.mp hc with rfl | hc
            · exact ihPI _ _ _ h1
            · exact ihM0PI _ _ _ h2 c hc
    · -- program
      intro input rest n h
      simp only [program] at h
      cases h1 : programItem f input with
      | fail => rw [h1] at h; cases h
      | panicP => rw [h1] at h; cases h
      | ok input1 first =>
        rw [h1] at h
        simp only [] at h
        cases h2 : many0programItem f input1 with
        | fail => rw [h2] at h; cases h
        | panicP => rw [h2] at h; cases h
        | ok input2 items =>
          rw [h2] at h
          simp only [] at h
          cases h
          refine ⟨_, rfl, ?_⟩
          intro c hc
          rcases List.mem_cons.mp hc with rfl | hc
          · exact ihPI _ _ _ h1
          · exact ihM0PI _ _ _ h2 c hc

/-! ### Claim theorems -/

/-- Shorthand for building a token. -/
def tk (k : TokenKind) (l : String) : Token := ⟨k, l⟩

/-- Token stream of `fn foo(){return 5;} fn main(){return foo();}`. -/
def c1TokensA : Tokens :=
  [tk .Fn "fn", tk .Alpha "foo", tk .LeftParen "(", tk .RightParen ")",
   tk .LeftCurly "\x7b", tk .Return "return", tk .Digit "5", tk .Semicolon ";",
   tk .RightCurly "\x7d",
   tk .Fn "fn", tk .Alpha "main", tk .LeftParen "(", tk .RightParen ")",
   tk .LeftCurly "\x7b", tk .Return "return", tk .Alpha "foo", tk .LeftParen "(",
   tk .RightParen ")", tk .Semicolon ";", tk .RightCurly "\x7d"]

/-- Token stream of `fn foo(a,b){return a+b;} fn main(){return foo(1,2);}`. -/
def c1TokensB : Tokens :=
  [tk .Fn "fn", tk .Alpha "foo", tk .LeftParen "(", tk .Alpha "a",
   tk .Comma ",", tk .Alpha "b", tk .RightParen ")",
   tk .LeftCurly "\x7b", tk .Return "return", tk .Alpha "a", tk .Plus "+",
   tk .Alpha "b", tk .Semicolon ";", tk .RightCurly "\x7d",
   tk .Fn "fn", tk .Alpha "main", tk .LeftParen "(", tk .RightParen ")",
   tk .LeftCurly "\x7b", tk .Return "return", tk .Alpha "foo", tk .LeftParen "(",
   tk .Digit "1", tk .Comma ",", tk .Digit "2", tk .RightParen ")",
   tk .Semicolon ";", tk .RightCurly "\x7d"]

/-- C1: refuted by the code — for both spec programs the parse succeeds and
the `Program` evaluation registers the functions, but invoking `main` via
`start_main` returns the generic "No supported node type" error (the
evaluator has no `FunctionStatements` arm, so every stored function body
fails to evaluate); the result is an error, not `Number(5)`/`Number(3)` as
the claim and the repository's own tests state. -/
theorem c1_defined_call_returns_generic_error :
    (∃ ast i1 s i2,
      programTop c1TokensA = .ok [] ast ∧
      exec 20 interpNew ast = .out (.ok (.Bool true)) i1 ∧
      start_main 20 i1 [] = .out (.error (.Generic s)) i2) ∧
    (∃ ast i1 s i2,
      programTop c1TokensB = .ok [] ast ∧
      exec 20 interpNew ast = .out (.ok (.Bool true)) i1 ∧
      start_main 20 i1 [] = .out (.error (.Generic s)) i2) := by
  constructor
  · exact ⟨_, _, _, _, rfl, rfl, rfl⟩
  · exact ⟨_, _, _, _, rfl, rfl, rfl⟩

/-- Token stream of the top-level statement `return 5;`. -/
def c2Tokens : Tokens := [tk .Return "return", tk .Digit "5", tk .Semicolon ";"]

/-- C2, counterexample: the `program` production accepts `return 5;` with
the stream fully consumed (literal in `i32` range), producing a `Program`
whose child is a `FunctionReturn`; evaluating it hits the `Program` arm's
`unreachable!` and aborts the process instead of returning a `Result`. -/
theorem c2_top_level_return_aborts :
    programTop c2Tokens =
      .ok [] (.Program [.FunctionReturn [.Expression [.Number 5]]]) ∧
    exec 2 interpNew (.Program [.FunctionReturn [.Expression [.Number 5]]]) =
      .panicked := ⟨rfl, rfl⟩

/-- C2, amended: for every token stream that `program` accepts with the
stream fully consumed, if no top-level child of the parse is a
`FunctionReturn` (a bare `return ...;` statement), then evaluating the
resulting AST from a fresh interpreter never aborts (at any recursion
depth), and with sufficient fuel it returns a `Result` — a value or an
error. -/
theorem c2_no_abort_without_top_level_return :
    ∀ (f : Nat) (ts : Tokens) (ast : Node),
      program f ts = .ok [] ast →
      (∀ cs, ast = .Program cs → ∀ c ∈ cs, isFunctionReturnB c = false) →
      (∀ fuel, exec fuel interpNew ast ≠ .panicked) ∧
      (∃ r i', exec (eheight ast) interpNew ast = .out r i') := by
  intro f ts ast hparse hnofr
  have hprog := (parserShapes f).2.2.2.2.2.2.2.2.2.2.2
  obtain ⟨cs, rfl, hshape⟩ := hprog _ _ _ hparse
  have hgood : goodB (.Program cs) = true := by
    simp only [goodB, Bool.and_eq_true]
    constructor
    · rw [List.all_eq_true]
      intro c hc
      exact topKind_not_FR_allowed (hshape c hc).2 (hnofr cs rfl c hc)
    · exact goodBList_of_forall (fun c hc => (hshape c hc).1)
  exact ⟨fun fuel => exec_noPanic fuel interpNew _ bodiesFS_interpNew hgood,
         exec_total _ interpNew _ bodiesFS_interpNew hgood (le_refl _)⟩

/-- Witness for the amended C2 at the concrete accepted stream `123`. -/
theorem c2_no_abort_without_top_level_return_witness :
    (program (parseFuel [tk .Digit "123"]) [tk .Digit "123"] =
      .ok [] (.Program [.Expression [.Number 123]]) ∧
     (∀ cs, Node.Program [.Expression [.Number 123]] = .Program cs →
       ∀ c ∈ cs, isFunctionReturnB c = false)) ∧
    ((∀ fuel, exec fuel interpNew (.Program [.Expression [.Number 123]]) ≠ .panicked) ∧
     (∃ r i', exec (eheight (.Program [.Expression [.Number 123]])) interpNew
        (.Program [.Expression [.Number 123]]) = .out r i')) := by
  have hfr : ∀ cs, Node.Program [.Expression [.Number 123]] = .Program cs →
      ∀ c ∈ cs, isFunctionReturnB c = false := by
    intro cs hcs c hc
    cases hcs
    rcases List.mem_singleton.mp hc with rfl
    rfl
  exact ⟨⟨rfl, hfr⟩,
    c2_no_abort_without_top_level_return (parseFuel [tk .Digit "123"])
      [tk .Digit "123"] _ rfl hfr⟩

/-- C3, counterexample: in a `Program`, the first child (`x`, an undefined
identifier) evaluates to an error, yet evaluation continues and the
overall result is the last child's value `Number(7)` — the first error
neither aborts the evaluation nor propagates to the caller. -/
theorem c3_error_not_propagated :
    exec 2 interpNew (.Expression [.Identifier "x"]) =
      .out (.error .UndefinedFunction) interpNew ∧
    exec 3 interpNew (.Program [.Expression [.Identifier "x"], .Number 7]) =
      .out (.ok (.Number 7)) interpNew := ⟨rfl, rfl⟩

/-- C3, amended: the `Program` arm has no local recovery but also no
propagation: a child's error is only stored as the running result and
evaluation continues with the remaining children from the (possibly
mutated) state; the error is the overall result exactly when it came from
the last child. -/
theorem c3_program_error_continues :
    ∀ (fuel : Nat) (i : Interp) (n : Node) (rest : List Node)
      (e : AsaErrorKind) (i1 : Interp) (r0 : Except AsaErrorKind Value),
      allowedTop n = true →
      exec fuel i n = .out (.error e) i1 →
      exec (fuel + 1) i (.Program (n :: rest)) =
        progChildrenGo (exec fuel) i (n :: rest) (.ok (.Bool true)) ∧
      progChildrenGo (exec fuel) i (n :: rest) r0 =
        progChildrenGo (exec fuel) i1 rest (.error e) ∧
      (rest = [] →
        progChildrenGo (exec fuel) i (n :: rest) r0 = .out (.error e) i1) := by
  intro fuel i n rest e i1 r0 hallow hx
  refine ⟨rfl, ?_, ?_⟩
  · simp only [progChildrenGo, if_pos hallow, hx]
  · intro hrest
    subst hrest
    simp only [progChildrenGo, if_pos hallow, hx]

/-- Witness for the amended C3: the undefined identifier `x` errors, the
loop continues into the remaining children, and when it is the last child
its error is the overall result. -/
theorem c3_program_error_continues_witness :
    (allowedTop (.Expression [.Identifier "x"]) = true ∧
     exec 2 interpNew (.Expression [.Identifier "x"]) =
       .out (.error .UndefinedFunction) interpNew) ∧
    (exec 3 interpNew (.Program [.Expression [.Identifier "x"], .Number 7]) =
       progChildrenGo (exec 2) interpNew [.Expression [.Identifier "x"], .Number 7]
         (.ok (.Bool true)) ∧
     progChildrenGo (exec 2) interpNew [.Expression [.Identifier "x"], .Number 7]
         (.ok (.Bool true)) =
       progChildrenGo (exec 2) interpNew [.Number 7] (.error .UndefinedFunction) ∧
     ([] = ([] : List Node) →
       progChildrenGo (exec 2) interpNew [.Expression [.Identifier "x"]]
           (.ok (.Bool true)) = .out (.error .UndefinedFunction) interpNew)) := by
  refine ⟨⟨rfl, rfl⟩, ?_, ?_, ?_⟩
  · exact (c3_program_error_continues 2 interpNew (.Expression [.Identifier "x"])
      [.Number 7] .UndefinedFunction interpNew (.ok (.Bool true)) rfl rfl).1
  · exact (c3_program_error_continues 2 interpNew (.Expression [.Identifier "x"])
      [.Number 7] .UndefinedFunction interpNew (.ok (.Bool true)) rfl rfl).2.1
  · exact (c3_program_error_continues 2 interpNew (.Expression [.Identifier "x"])
      [] .UndefinedFunction interpNew (.ok (.Bool true)) rfl rfl).2.2

/-- C4: the claim (divide-by-zero raises a defined runtime error and never
traps) is what the spec requires, but the code computes `lhs / rhs` with
Rust's `/`, which panics on a zero divisor: evaluating
`MathExpression div [1, 0]` aborts the process instead of producing an
error value. -/
theorem c4_div_by_zero_panics :
    exec 2 interpNew (.MathExpression "div" [.Number 1, .Number 0]) = .panicked ∧
    i32Div 1 0 = none := ⟨rfl, rfl⟩

/-- C5: whenever a `FunctionCall` evaluation completes with a `Result`,
the call stack has the same length and the same frames below the top as
before the call; and whenever the evaluation reaches the push of the new
frame (name resolved, arity matched, parameters bound), the frame is
popped regardless of the body's success or failure, the resulting stack is
exactly the caller's stack from before the push, and any name unbound in
the caller's top frame is still unresolvable afterwards. -/
theorem c5_frame_popped_unconditionally :
    ∀ (fuel : Nat) (i : Interp) (nm : String) (cs : List Node),
      (∀ r i', exec (fuel + 1) i (.FunctionCall nm cs) = .out r i' →
        i'.stack.length = i.stack.length ∧ i'.stack.tail = i.stack.tail) ∧
      (∀ params body nf i1 r2 i2,
        aLookup i.functions nm = some (.FunctionArguments params, body) →
        params.length = cs.length →
        callLoopGo (exec fuel) i (params.zip cs) [] = .done nf i1 →
        exec fuel { i1 with stack := nf :: i1.stack } body = .out r2 i2 →
        exec (fuel + 1) i (.FunctionCall nm cs) =
          .out r2 { i2 with stack := i2.stack.tail } ∧
        i2.stack.tail = i1.stack ∧
        (∀ x fr rest1, i1.stack = fr :: rest1 → aLookup fr x = none →
          exec 1 { i2 with stack := i2.stack.tail } (.Identifier x) =
            .out (.error .UndefinedFunction) { i2 with stack := i2.stack.tail })) := by
  intro fuel i nm cs
  constructor
  · intro r i' h
    have := exec_state (fuel + 1) i (.FunctionCall nm cs) r i' h
    exact ⟨this.1, this.2.1⟩
  · intro params body nf i1 r2 i2 hlook harity hloop hbody
    have hpop : i2.stack.tail = i1.stack :=
      (exec_state fuel { i1 with stack := nf :: i1.stack } body r2 i2 hbody).2.1
    have hcall : exec (fuel + 1) i (.FunctionCall nm cs) =
        .out r2 { i2 with stack := i2.stack.tail } := by
      rw [exec_succ]
      simp only [execStep, hlook]
      rw [if_neg (by simp [harity])]
      rw [hloop]
      simp only [hbody]
    refine ⟨hcall, hpop, ?_⟩
    intro x fr rest1 hstack hnone
    rw [exec_succ]
    simp only [execStep]
    simp only [hpop, hstack, hnone]

/-- State used to witness C5: a one-parameter function `f` in the table,
one empty global frame. -/
def c5Interp : Interp :=
  { functions := [("f", (.FunctionArguments [.Identifier "a"], .FunctionStatements []))],
    stack := [[]] }

/-- The C5 witness state right after the push of the callee frame. -/
def c5Pushed : Interp :=
  { c5Interp with stack := [("a", Value.Number 7)] :: c5Interp.stack }

/-- Witness for C5 at the concrete call `f(7)`. -/
theorem c5_frame_popped_unconditionally_witness :
    (aLookup c5Interp.functions "f" =
        some (.FunctionArguments [.Identifier "a"], .FunctionStatements []) ∧
      ([Node.Identifier "a"] : List Node).length = ([Node.Number 7] : List Node).length ∧
      callLoopGo (exec 1) c5Interp ([Node.Identifier "a"].zip [Node.Number 7]) []
        = .done [("a", Value.Number 7)] c5Interp ∧
      exec 1 c5Pushed (.FunctionStatements []) =
        .out (.error (.Generic (noSupportMsg (.FunctionStatements [])))) c5Pushed) ∧
    (exec 2 c5Interp (.FunctionCall "f" [.Number 7]) =
        .out (.error (.Generic (noSupportMsg (.FunctionStatements []))))
          { c5Pushed with stack := c5Pushed.stack.tail } ∧
      c5Pushed.stack.tail = c5Interp.stack ∧
      exec 1 { c5Pushed with stack := c5Pushed.stack.tail } (.Identifier "z") =
        .out (.error .UndefinedFunction) { c5Pushed with stack := c5Pushed.stack.tail }) := by
  have H := (c5_frame_popped_unconditionally 1 c5Interp "f" [.Number 7]).2
    [.Identifier "a"] (.FunctionStatements []) [("a", Value.Number 7)] c5Interp
    (.error (.Generic (noSupportMsg (.FunctionStatements [])))) c5Pushed
    rfl rfl rfl rfl
  exact ⟨⟨rfl, rfl, rfl, rfl⟩, H.1, H.2.1, H.2.2 "z" [] [] rfl rfl⟩

/-- C6: when the called name resolves to a definition with parameter list
`params`, a call whose argument count differs from `params.length` fails
immediately with the arity error naming the expected and actual counts —
before any argument is evaluated and with the state unchanged (no
truncation or padding); when the counts are equal, the call proceeds to
the parameter-binding loop, so this arity error is not raised. -/
theorem c6_arity_check :
    ∀ (fuel : Nat) (i : Interp) (nm : String) (cs : List Node)
      (params : List Node) (body : Node),
      aLookup i.functions nm = some (.FunctionArguments params, body) →
      (params.length ≠ cs.length →
        exec (fuel + 1) i (.FunctionCall nm cs) =
          .out (.error (.Generic
            ("Expected a total of " ++ toString params.length ++
             " arguments, instead got only " ++ toString cs.length ++
             " arguments"))) i) ∧
      (params.length = cs.length →
        exec (fuel + 1) i (.FunctionCall nm cs) =
          (match callLoopGo (exec fuel) i (params.zip cs) [] with
           | .done nf i1 =>
             (match exec fuel { i1 with stack := nf :: i1.stack } body with
              | .out r i2 => .out r { i2 with stack := i2.stack.tail }
              | .panicked => .panicked
              | .fuelSpent => .fuelSpent)
           | .errout e i1 => .out (.error e) i1
           | .panickedL => .panicked
           | .fuelSpentL => .fuelSpent)) := by
  intro fuel i nm cs params body hlook
  constructor
  · intro hne
    rw [exec_succ]
    simp only [execStep, hlook]
    rw [if_pos hne]
  · intro heq
    rw [exec_succ]
    simp only [execStep, hlook]
    rw [if_neg (by simp [heq])]

/-- Witness for C6: calling the one-parameter `f` with no arguments raises
the arity error "expected 1, got 0" with the state unchanged; calling it
with one argument proceeds to the binding loop. -/
theorem c6_arity_check_witness :
    aLookup c5Interp.functions "f" =
      some (.FunctionArguments [.Identifier "a"], .FunctionStatements []) ∧
    (([Node.Identifier "a"] : List Node).length ≠ ([] : List Node).length ∧
      exec 3 c5Interp (.FunctionCall "f" []) =
        .out (.error (.Generic
          "Expected a total of 1 arguments, instead got only 0 arguments")) c5Interp) ∧
    (([Node.Identifier "a"] : List Node).length = ([Node.Number 7] : List Node).length ∧
      exec 3 c5Interp (.FunctionCall "f" [.Number 7]) =
        (match callLoopGo (exec 2) c5Interp
            ([Node.Identifier "a"].zip [Node.Number 7]) [] with
         | .done nf i1 =>
           (match exec 2 { i1 with stack := nf :: i1.stack }
               (Node.FunctionStatements []) with
            | .out r i2 => .out r { i2 with stack := i2.stack.tail }
            | .panicked => .panicked
            | .fuelSpent => .fuelSpent)
         | .errout e i1 => .out (.error e) i1
         | .panickedL => .panicked
         | .fuelSpentL => .fuelSpent)) := by
  refine ⟨rfl, ⟨by decide, ?_⟩, rfl, ?_⟩
  · exact ((c6_arity_check 2 c5Interp "f" [] [.Identifier "a"]
      (.FunctionStatements []) rfl).1 (by decide))
  · exact ((c6_arity_check 2 c5Interp "f" [.Number 7] [.Identifier "a"]
      (.FunctionStatements []) rfl).2 rfl)

/-- C7: identifier lookup inspects only the top-of-stack frame — a bound
name returns its value, an unbound one fails with `UndefinedFunction`
regardless of what lower frames contain, and that is the same error kind a
`FunctionCall` to an unresolvable name produces. -/
theorem c7_identifier_top_frame_only :
    ∀ (fuel : Nat) (i : Interp) (x : String),
      (∀ fr rest v, i.stack = fr :: rest → aLookup fr x = some v →
        exec (fuel + 1) i (.Identifier x) = .out (.ok v) i) ∧
      (∀ fr rest, i.stack = fr :: rest → aLookup fr x = none →
        exec (fuel + 1) i (.Identifier x) = .out (.error .UndefinedFunction) i) ∧
      (∀ nm cs, aLookup i.functions nm = none →
        exec (fuel + 1) i (.FunctionCall nm cs) =
          .out (.error .UndefinedFunction) i) := by
  intro fuel i x
  refine ⟨?_, ?_, ?_⟩
  · intro fr rest v hstack hlook
    rw [exec_succ]
    simp only [execStep, hstack, hlook]
  · intro fr rest hstack hlook
    rw [exec_succ]
    simp only [execStep, hstack, hlook]
  · intro nm cs hlook
    rw [exec_succ]
    simp only [execStep, hlook]

/-- State used to witness C7: `y` bound in the top frame, `x` bound only
in the lower frame, empty function table. -/
def c7Interp : Interp :=
  { functions := [],
    stack := [[("y", Value.Number 1)], [("x", Value.Number 5)]] }

/-- Witness for C7: `y` resolves in the top frame; `x` — bound only one
frame below — fails with `UndefinedFunction`, the same error kind as the
call to the undefined function `g`. -/
theorem c7_identifier_top_frame_only_witness :
    (c7Interp.stack = [("y", Value.Number 1)] :: [[("x", Value.Number 5)]] ∧
      aLookup [("y", Value.Number 1)] "y" = some (Value.Number 1) ∧
      aLookup [("y", Value.Number 1)] "x" = none ∧
      aLookup [("x", Value.Number 5)] "x" = some (Value.Number 5) ∧
      aLookup c7Interp.functions "g" = none) ∧
    (exec 1 c7Interp (.Identifier "y") = .out (.ok (Value.Number 1)) c7Interp ∧
      exec 1 c7Interp (.Identifier "x") =
        .out (.error .UndefinedFunction) c7Interp ∧
      exec 1 c7Interp (.FunctionCall "g" []) =
        .out (.error .UndefinedFunction) c7Interp) := by
  refine ⟨⟨rfl, rfl, rfl, rfl, rfl⟩, ?_, ?_, ?_⟩
  · exact (c7_identifier_top_frame_only 0 c7Interp "y").1
      [("y", Value.Number 1)] [[("x", Value.Number 5)]] (Value.Number 1) rfl rfl
  · exact (c7_identifier_top_frame_only 0 c7Interp "x").2.1
      [("y", Value.Number 1)] [[("x", Value.Number 5)]] rfl rfl
  · exact (c7_identifier_top_frame_only 0 c7Interp "x").2.2 "g" [] rfl

/-- Sequential evaluation of the argument expressions in the caller's
threaded state — no frame is pushed while this runs; `none` when some
argument does not evaluate to an `Ok` value. -/
def evalArgsSeq (ex : Interp → Node → ExecComp) :
    Interp → List Node → Option (List Value × Interp)
  | i, [] => some ([], i)
  | i, a :: rest =>
    match ex i a with
    | .out (.ok v) i' =>
      (match evalArgsSeq ex i' rest with
       | some (vs, i2) => some (v :: vs, i2)
       | none => none)
    | _ => none

/-- The parameter names of a definition's `FunctionArguments` children,
defined when every parameter is an `Identifier`. -/
def paramNames : List Node → Option (List String)
  | [] => some []
  | .Identifier s :: rest => (paramNames rest).map (fun xs => s :: xs)
  | _ => none

/-- The frame built by binding values to names positionally, in loop order
(`HashMap::insert` per pair). -/
def mkFrame : List String → List Value → Frame → Frame
  | x :: xs, v :: vs, fr => mkFrame xs vs (aInsert x v fr)
  | _, _, fr => fr

/-- Loop fission: the parameter-binding loop is exactly "evaluate every
argument sequentially in the caller's threaded state, then zip the values
with the parameter names into the accumulated frame". -/
theorem callLoopGo_eval {ex : Interp → Node → ExecComp} :
    ∀ (params cs : List Node) (xs : List String) (vs : List Value)
      (i i1 : Interp) (fr : Frame),
      paramNames params = some xs →
      params.length = cs.length →
      evalArgsSeq ex i cs = some (vs, i1) →
      callLoopGo ex i (params.zip cs) fr = .done (mkFrame xs vs fr) i1 := by
  intro params
  induction params with
  | nil =>
    intro cs xs vs i i1 fr hnames hlen hargs
    cases cs with
    | cons a as => cases hlen
    | nil =>
      simp only [paramNames] at hnames
      cases hnames
      simp only [evalArgsSeq] at hargs
      cases hargs
      rfl
  | cons p ps ih =>
    intro cs xs vs i i1 fr hnames hlen hargs
    cases cs with
    | nil => cases hlen
    | cons a as =>
      cases p with
      | Identifier s =>
        simp only [paramNames] at hnames
        cases hps : paramNames ps with
        | none => rw [hps] at hnames; cases hnames
        | some xs2 =>
        rw [hps] at hnames
        simp only [Option.map] at hnames
        cases hnames
        have hxs' : paramNames ps = some xs2 := hps
        simp only [evalArgsSeq] at hargs
        cases hx : ex i a with
        | out r i' =>
          rw [hx] at hargs
          cases r with
          | ok v =>
            simp only [] at hargs
            cases h2 : evalArgsSeq ex i' as with
            | none => rw [h2] at hargs; cases hargs
            | some p2 =>
              obtain ⟨vs', i2⟩ := p2
              rw [h2] at hargs
              simp only [] at hargs
              cases hargs
              simp only [List.zip_cons_cons, callLoopGo, hx]
              have hlen' : ps.length = as.length := by
                simpa using hlen
              exact ih as xs2 vs' i' i1 (aInsert s v fr) hxs' hlen' h2
          | error e => simp only [] at hargs; cases hargs
        | panicked => rw [hx] at hargs; simp only [] at hargs; cases hargs
        | fuelSpent => rw [hx] at hargs; simp only [] at hargs; cases hargs
      | Program c2 => simp [paramNames] at hnames
      | Statement c2 => simp [paramNames] at hnames
      | FunctionDefine nm2 c2 => simp [paramNames] at hnames
      | FunctionArguments c2 => simp [paramNames] at hnames
      | FunctionStatements c2 => simp [paramNames] at hnames
      | Expression c2 => simp [paramNames] at hnames
      | MathExpression nm2 c2 => simp [paramNames] at hnames
      | FunctionCall nm2 c2 => simp [paramNames] at hnames
      | VariableDefine c2 => simp [paramNames] at hnames
      | FunctionReturn c2 => simp [paramNames] at hnames
      | Number v2 => simp [paramNames] at hnames
      | Bool b2 => simp [paramNames] at hnames
      | String s2 => simp [paramNames] at hnames
      | Comment s2 => simp [paramNames] at hnames
      | Null => simp [paramNames] at hnames

/-- C8: in a `FunctionCall`, every argument expression is evaluated in the
caller's threaded state (`evalArgsSeq` — before any frame is pushed), the
values are bound by position into a fresh frame keyed by the definition's
parameter names (`mkFrame` over `paramNames`), and only then is that frame
pushed for the body's evaluation and popped afterwards. -/
theorem c8_args_eval_in_caller_before_push :
    ∀ (fuel : Nat) (i : Interp) (params cs : List Node) (xs : List String)
      (vs : List Value) (i1 : Interp),
      paramNames params = some xs →
      params.length = cs.length →
      evalArgsSeq (exec fuel) i cs = some (vs, i1) →
      callLoopGo (exec fuel) i (params.zip cs) [] = .done (mkFrame xs vs []) i1 ∧
      (∀ nm body, aLookup i.functions nm = some (.FunctionArguments params, body) →
        exec (fuel + 1) i (.FunctionCall nm cs) =
          (match exec fuel { i1 with stack := mkFrame xs vs [] :: i1.stack } body with
           | .out r i2 => .out r { i2 with stack := i2.stack.tail }
           | .panicked => .panicked
           | .fuelSpent => .fuelSpent)) := by
  intro fuel i params cs xs vs i1 hnames hlen hargs
  have hloop := callLoopGo_eval params cs xs vs i i1 [] hnames hlen hargs
  refine ⟨hloop, ?_⟩
  intro nm body hlook
  rw [exec_succ]
  simp only [execStep, hlook]
  rw [if_neg (by simp [hlen])]
  rw [hloop]

/-- State used to witness C8: a two-parameter function `g` in the table. -/
def c8Interp : Interp :=
  { functions := [("g", (.FunctionArguments [.Identifier "a", .Identifier "b"],
      .FunctionStatements []))],
    stack := [[]] }

/-- Witness for C8 at the concrete call `g(1, 2)`. -/
theorem c8_args_eval_in_caller_before_push_witness :
    (paramNames [Node.Identifier "a", Node.Identifier "b"] = some ["a", "b"] ∧
      ([Node.Identifier "a", Node.Identifier "b"] : List Node).length =
        ([Node.Number 1, Node.Number 2] : List Node).length ∧
      evalArgsSeq (exec 1) c8Interp [Node.Number 1, Node.Number 2] =
        some ([Value.Number 1, Value.Number 2], c8Interp) ∧
      aLookup c8Interp.functions "g" =
        some (.FunctionArguments [.Identifier "a", .Identifier "b"],
          .FunctionStatements [])) ∧
    (callLoopGo (exec 1) c8Interp
        ([Node.Identifier "a", Node.Identifier "b"].zip
          [Node.Number 1, Node.Number 2]) [] =
      .done (mkFrame ["a", "b"] [Value.Number 1, Value.Number 2] []) c8Interp ∧
      exec 2 c8Interp (.FunctionCall "g" [.Number 1, .Number 2]) =
        (match exec 1 { c8Interp with
            stack := mkFrame ["a", "b"] [Value.Number 1, Value.Number 2] []
              :: c8Interp.stack } (Node.FunctionStatements []) with
         | .out r i2 => .out r { i2 with stack := i2.stack.tail }
         | .panicked => .panicked
         | .fuelSpent => .fuelSpent)) := by
  have H := c8_args_eval_in_caller_before_push 1 c8Interp
    [Node.Identifier "a", Node.Identifier "b"] [Node.Number 1, Node.Number 2]
    ["a", "b"] [Value.Number 1, Value.Number 2] c8Interp rfl rfl rfl
  exact ⟨⟨rfl, rfl, rfl, rfl⟩, H.1, H.2 "g" (.FunctionStatements []) rfl⟩

/-- C9: a `Statement` dispatches on its first child — a `VariableDefine`
or `FunctionReturn` child is evaluated and its result returned; any other
child yields the "The expression is undefined" error. -/
theorem c9_statement_dispatch :
    ∀ (fuel : Nat) (i : Interp) (c : Node) (rest : List Node),
      ((∃ xs, c = .VariableDefine xs) ∨ (∃ xs, c = .FunctionReturn xs) →
        exec (fuel + 1) i (.Statement (c :: rest)) = exec fuel i c) ∧
      ((∀ xs, c ≠ .VariableDefine xs) → (∀ xs, c ≠ .FunctionReturn xs) →
        exec (fuel + 1) i (.Statement (c :: rest)) =
          .out (.error (.Generic "The expression is undefined")) i) := by
  intro fuel i c rest
  constructor
  · intro h
    rcases h with ⟨xs, rfl⟩ | ⟨xs, rfl⟩
    · rfl
    · rfl
  · intro h1 h2
    cases c with
    | VariableDefine xs => exact absurd rfl (h1 xs)
    | FunctionReturn xs => exact absurd rfl (h2 xs)
    | Program xs => rfl
    | Statement xs => rfl
    | FunctionDefine nm xs => rfl
    | FunctionArguments xs => rfl
    | FunctionStatements xs => rfl
    | Expression xs => rfl
    | MathExpression nm xs => rfl
    | FunctionCall nm xs => rfl
    | Number v => rfl
    | Bool b => rfl
    | Identifier s => rfl
    | String s => rfl
    | Comment s => rfl
    | Null => rfl

/-- Witness for C9: a `VariableDefine` child is dispatched to, a bare
`Expression` child is rejected. -/
theorem c9_statement_dispatch_witness :
    ((∃ xs, Node.VariableDefine [Node.Identifier "x", Node.Expression [Node.Number 1]]
        = .VariableDefine xs) ∧
      exec 3 interpNew (.Statement
        [.VariableDefine [.Identifier "x", .Expression [.Number 1]]]) =
        exec 2 interpNew
          (.VariableDefine [.Identifier "x", .Expression [.Number 1]])) ∧
    ((∀ xs, Node.Expression [Node.Number 1] ≠ .VariableDefine xs) ∧
      (∀ xs, Node.Expression [Node.Number 1] ≠ .FunctionReturn xs) ∧
      exec 3 interpNew (.Statement [.Expression [.Number 1]]) =
        .out (.error (.Generic "The expression is undefined")) interpNew) := by
  refine ⟨⟨⟨_, rfl⟩, ?_⟩, ?_, ?_, ?_⟩
  · exact (c9_statement_dispatch 2 interpNew
      (.VariableDefine [.Identifier "x", .Expression [.Number 1]]) []).1
      (Or.inl ⟨_, rfl⟩)
  · intro xs h; cases h
  · intro xs h; cases h
  · exact (c9_statement_dispatch 2 interpNew (.Expression [.Number 1]) []).2
      (fun xs h => by cases h) (fun xs h => by cases h)

/-- C10: a `FunctionStatements` node reaches the evaluator's catch-all arm
and returns the generic "No supported node type" error; every body stored
in the function table is a `FunctionStatements` node (true initially and
preserved by `exec`), so evaluating any stored function body — which is
what the `FunctionCall` arm does — yields this error. -/
theorem c10_function_statements_unsupported :
    (∀ (fuel : Nat) (i : Interp) (cs : List Node),
      exec (fuel + 1) i (.FunctionStatements cs) =
        .out (.error (.Generic (noSupportMsg (.FunctionStatements cs)))) i) ∧
    bodiesFS interpNew ∧
    (∀ (fuel : Nat) (i : Interp) (n : Node) (r : Except AsaErrorKind Value)
      (i' : Interp), bodiesFS i → exec fuel i n = .out r i' → bodiesFS i') ∧
    (∀ (fuel : Nat) (i : Interp) (nm : String) (fa body : Node),
      bodiesFS i → aLookup i.functions nm = some (fa, body) →
      ∃ cs, body = .FunctionStatements cs ∧
        exec (fuel + 1) i body =
          .out (.error (.Generic (noSupportMsg body))) i) := by
  refine ⟨fun fuel i cs => exec_FS fuel i cs, bodiesFS_interpNew,
    fun fuel i n r i' hb h => (exec_state fuel i n r i' h).2.2 hb, ?_⟩
  intro fuel i nm fa body hb hlook
  obtain ⟨cs, hcs⟩ := hb _ (aLookup_mem hlook)
  simp only [] at hcs
  subst hcs
  exact ⟨cs, rfl, exec_FS fuel i cs⟩

/-- Witness for C10 at concrete states: the catch-all error on
`FunctionStatements []`, preservation across a concrete `exec`, and the
stored body of `f` in `c5Interp` erroring when evaluated. -/
theorem c10_function_statements_unsupported_witness :
    (exec 1 interpNew (.FunctionStatements []) =
      .out (.error (.Generic (noSupportMsg (.FunctionStatements [])))) interpNew) ∧
    (bodiesFS interpNew ∧ exec 1 interpNew (.Number 3) =
        .out (.ok (Value.Number 3)) interpNew ∧ bodiesFS interpNew) ∧
    (bodiesFS c5Interp ∧
      aLookup c5Interp.functions "f" =
        some (.FunctionArguments [.Identifier "a"], .FunctionStatements []) ∧
      ∃ cs, Node.FunctionStatements [] = .FunctionStatements cs ∧
        exec 1 c5Interp (.FunctionStatements []) =
          .out (.error (.Generic (noSupportMsg (.FunctionStatements [])))) c5Interp) := by
  have hbc5 : bodiesFS c5Interp := by
    intro p hp
    rcases List.mem_singleton.mp hp with rfl
    exact ⟨[], rfl⟩
  refine ⟨c10_function_statements_unsupported.1 0 interpNew [],
    ⟨c10_function_statements_unsupported.2.1, rfl,
      c10_function_statements_unsupported.2.2.1 1 interpNew (.Number 3)
        (.ok (Value.Number 3)) interpNew bodiesFS_interpNew rfl⟩,
    hbc5, rfl, ?_⟩
  exact c10_function_statements_unsupported.2.2.2 0 c5Interp "f"
    (.FunctionArguments [.Identifier "a"]) (.FunctionStatements []) hbc5 rfl
end Asa
